import Mathlib

/-! # AVR LED PWM controller (`a4.c`): embedding and verified properties

The program drives four LEDs wired to bits 7, 5, 3, 1 of the 8-bit output
register `PORTL` of an AVR microcontroller (avr-gcc: `int` is 16 bits,
`long int` is 32 bits, `float` is IEEE-754 binary32).

Conventions of the embedding:

* the register `PORTL` is a `Nat`, every store to it is reduced `% 256`;
* `int` and `long int` variables are `Int`; the one narrowing conversion of
  the program (`long int` to `int`) is `to_int16`, and the never-reset
  `slow_count` wraps in 32 bits (`to_int32`);
* a `volatile` read is an input of the function that performs it, a store is
  an output; the interrupt handlers are functions on the counter they update;
* `_delay_ms(d)` is recorded as a `Hold` of the register value for `d` ms;
* a `for` loop with constant bounds is a recursion over `List.range`;
* `float` values are finite binary32 numbers `(-1)^neg * man * 2^exp`, and
  arithmetic on them rounds to nearest, ties to even.
-/

namespace A4

/-! ## Constants and interrupt handlers -/

/-- The constant `#define PWM_PERIOD ((long int)500)`. -/
def PWM_PERIOD : Int := 500

/-- Handler `ISR(TIMER1_COMPA_vect) { count++; }` as a function on `count`
(in `glow` the counter is reset at `PWM_PERIOD`, far from the 32-bit range). -/
def TIMER1_COMPA (count : Int) : Int := count + 1

/-- Reduction of an integer to the 32-bit `long int` of the target (two's
complement, into `[-2^31, 2^31 - 1]`). -/
def to_int32 (v : Int) : Int := (v + 2147483648) % 4294967296 - 2147483648

/-- Handler `ISR(TIMER3_COMPA_vect) { slow_count += 5; }` as a function on
`slow_count`, a `volatile long int` that no code resets: the 32-bit addition
wraps. -/
def TIMER3_COMPA (slow_count : Int) : Int := to_int32 (slow_count + 5)

/-- Value of `slow_count` (initially 0) after `n` slow-timer interrupts. -/
def slow_count_after (n : Nat) : Int := TIMER3_COMPA^[n] 0

/-- Conversion of a `long int` value to the 16-bit `int` of the target
(reduction modulo `2^16` into `[-32768, 32767]`). -/
def to_int16 (v : Int) : Int := (v + 32768) % 65536 - 32768

/-! ## LED driver -/

/-- Function `void led_state(uint8_t LED, uint8_t state)`, from the value of
`PORTL` before the call to its value after it.

The mask `uint8_t mask = 1<<(7-(LED*2))` is the shift reduced to 8 bits; for `LED > 3`
the C shift count is negative (undefined), so the model is meaningful for
`LED ≤ 3` only.  `~mask` is computed on the promoted 16-bit `int`
(`65535 - mask`), and the store to `PORTL` keeps the low 8 bits. -/
def led_state (LED state PORTL : Nat) : Nat :=
  let mask := (1 <<< (7 - LED * 2)) % 256
  if state ≠ 0 then
    (PORTL ||| mask) % 256
  else
    (PORTL &&& (65535 - mask)) % 256

/-- Observed states of LED0..LED3: bits 7, 5, 3, 1 of the register. -/
def led_bits (PORTL : Nat) : List Bool :=
  [PORTL.testBit 7, PORTL.testBit 5, PORTL.testBit 3, PORTL.testBit 1]

/-! ## Pattern player `SOS` -/

/-- One `_delay_ms(ms)` call, with the register value held during it. -/
structure Hold where
  PORTL : Nat
  ms : Int
deriving DecidableEq, Repr

/-- Loop `for(uint8_t j = 0; j < 4; j++) led_state(j, (pattern >> j) & 1);`. -/
def leds_write (pattern PORTL : Nat) : Nat :=
  (List.range 4).foldl (fun P j => led_state j ((pattern >>> j) &&& 1) P) PORTL

/-- Loop `for(uint8_t j = 0; j < 4; j++) led_state(j, 0);`. -/
def leds_off (PORTL : Nat) : Nat :=
  (List.range 4).foldl (fun P j => led_state j 0 P) PORTL

/-- Array `light` of `SOS`. -/
def SOS_light : List Nat :=
  [0x1, 0, 0x1, 0, 0x1, 0,
   0xf, 0, 0xf, 0, 0xf, 0,
   0x1, 0, 0x1, 0, 0x1, 0,
   0x0]

/-- Array `duration` of `SOS`. -/
def SOS_duration : List Int :=
  [100, 250, 100, 250, 100, 500,
   250, 250, 250, 250, 250, 500,
   100, 250, 100, 250, 100, 250,
   250]

/-- Body of the `for` loop of `SOS` (the `switch`): the hold it performs and
the register value it leaves. -/
def SOS_body (pattern : Nat) (duration : Int) (PORTL : Nat) : Hold × Nat :=
  if pattern = 0 then
    (⟨PORTL, duration⟩, PORTL)
  else
    let P1 := leds_write pattern PORTL
    (⟨P1, duration⟩, leds_off P1)

/-- The loop `for(int i = 0; i < length; i++)` of `SOS` over the indices still
to visit; an index outside either array gives `none`. -/
def SOS_loop (light : List Nat) (duration : List Int) :
    List Nat → Nat → Option (List Hold × Nat)
  | [], PORTL => some ([], PORTL)
  | i :: rest, PORTL =>
    match light[i]?, duration[i]? with
    | some pattern, some d =>
      let step := SOS_body pattern d PORTL
      match SOS_loop light duration rest step.2 with
      | some (holds, final) => some (step.1 :: holds, final)
      | none => none
    | _, _ => none

/-- The loop of `SOS` run for the first `length` table entries. -/
def SOS_play (length PORTL : Nat) : Option (List Hold × Nat) :=
  SOS_loop SOS_light SOS_duration (List.range length) PORTL

/-- Function `void SOS()`: `int length = 19`. -/
def SOS (PORTL : Nat) : Option (List Hold × Nat) :=
  SOS_play 19 PORTL

/-! ## Single-precision arithmetic of `glow` -/

/-- A finite binary32 value `(-1)^neg * man * 2^exp`. -/
structure F32 where
  neg : Bool
  man : Nat
  exp : Int
deriving DecidableEq, Repr

/-- The rational number a binary32 value denotes. -/
def F32.toRat (x : F32) : ℚ :=
  (if x.neg then -1 else 1) * (x.man : ℚ) * (2 : ℚ) ^ x.exp

/-- Number of significant bits of `p`, by halving at most `fuel` times. -/
def bitlen_fuel : Nat → Nat → Nat
  | 0, _ => 0
  | fuel + 1, p => if p = 0 then 0 else bitlen_fuel fuel (p / 2) + 1

/-- Number of significant bits of a natural number (`p` halvings suffice). -/
def bitlen (p : Nat) : Nat := bitlen_fuel p p

/-- Rounding of the exact value `±p * 2^e` to binary32: at most 24 significant
bits, exponent of the last place at least `-149`, round to nearest, ties to
even.  (Overflow to infinity is not modelled: the exponent is unbounded
above.) -/
def f32_round (neg : Bool) (p : Nat) (e : Int) : F32 :=
  let s : Int := max ((bitlen p : Int) - 24) (-149 - e)
  if s ≤ 0 then
    ⟨neg, p, e⟩
  else
    let k := s.toNat
    let q := p / 2 ^ k
    let rem := p % 2 ^ k
    let half := 2 ^ (k - 1)
    if rem > half ∨ (rem = half ∧ q % 2 = 1) then
      ⟨neg, q + 1, e + s⟩
    else
      ⟨neg, q, e + s⟩

/-- Conversion of a `long int` to `float`. -/
def f32_of_long (n : Int) : F32 :=
  f32_round (decide (n < 0)) n.natAbs 0

/-- Single-precision product. -/
def f32_mul (x y : F32) : F32 :=
  f32_round (xor x.neg y.neg) (x.man * y.man) (x.exp + y.exp)

/-- Conversion of a `float` to `int`: the fractional part is discarded
(truncation toward zero).  The C conversion is defined only when the result
fits in `int`. -/
def f32_to_int (x : F32) : Int :=
  let mag : Nat := if 0 ≤ x.exp then x.man * 2 ^ x.exp.toNat else x.man / 2 ^ (-x.exp).toNat
  if x.neg then -(mag : Int) else (mag : Int)

/-- Statement `int threshold = PWM_PERIOD * brightness;` of `glow`. -/
def glow_threshold (brightness : F32) : Int :=
  f32_to_int (f32_mul (f32_of_long PWM_PERIOD) brightness)

/-- A binary32 value `x` is a nearest one to the rational `q`: it is zero or
has a full 24-bit significand, and is within half a unit in the last place. -/
def F32.Nearest (x : F32) (q : ℚ) : Prop :=
  ((x.man = 0 ∧ q = 0) ∨ (2 ^ 23 ≤ x.man ∧ x.man < 2 ^ 24 ∧ -149 ≤ x.exp)) ∧
    |x.toRat - q| ≤ (2 : ℚ) ^ x.exp / 2

instance F32.decidableNearest (x : F32) (q : ℚ) : Decidable (x.Nearest q) := by
  unfold F32.Nearest
  exact inferInstance

/-- The `float` 0. -/
def brightness_0 : F32 := ⟨false, 0, 0⟩

/-- The `float` nearest to 0.01 (`glow(2, .01)`), `0x3C23D70A`. -/
def brightness_0_01 : F32 := ⟨false, 10737418, -30⟩

/-- The `float` nearest to 0.1 (`glow(2, 0.1)`), `0x3DCCCCCD`. -/
def brightness_0_1 : F32 := ⟨false, 13421773, -27⟩

/-- The `float` 0.5 (`glow(2, 0.5)`). -/
def brightness_0_5 : F32 := ⟨false, 8388608, -24⟩

/-- The `float` nearest to 0.9 (`glow(2, 0.9)`), `0x3F666666`. -/
def brightness_0_9 : F32 := ⟨false, 15099494, -24⟩

/-- The `float` 1.0. -/
def brightness_1 : F32 := ⟨false, 8388608, -23⟩

/-! ## PWM brightness controller `glow` -/

/-- Local state of `glow` together with the register. -/
structure GlowState where
  is_on : Nat
  PORTL : Nat
deriving DecidableEq, Repr

/-- Lines `if(count>=PWM_PERIOD){ count = 0; }`: the store to `count` made
when the value read is `c1` (`none`: `count` is not written). -/
def glow_wrap (c1 : Int) : Option Int :=
  if c1 ≥ PWM_PERIOD then some 0 else none

/-- Value of `count` read by `if(count<threshold)` when the wrap check read
`c1` and `ticks` fast interrupts occur between the two statements. -/
def count_after (c1 : Int) (ticks : Nat) : Int :=
  TIMER1_COMPA^[ticks] ((glow_wrap c1).getD c1)

/-- The `if(count<threshold) ... else ...` statement of `glow` when the value
read from `count` is `c2`: the `led_state` command issued (`some 1` on,
`some 0` off, `none` no call) and the new state. -/
def glow_branch (LED : Nat) (threshold c2 : Int) (s : GlowState) : Option Nat × GlowState :=
  if c2 < threshold then
    if s.is_on = 0 then
      (some 1, ⟨1, led_state LED 1 s.PORTL⟩)
    else
      (none, s)
  else
    if s.is_on ≠ 0 then
      (some 0, ⟨0, led_state LED 0 s.PORTL⟩)
    else
      (none, s)

/-- One iteration of `while(1)` in `glow`: the wrap check reads `c1`, then
`ticks` fast interrupts occur, then the comparison reads `count`. -/
def glow_body (LED : Nat) (threshold c1 : Int) (ticks : Nat) (s : GlowState) :
    Option Nat × GlowState :=
  glow_branch LED threshold (count_after c1 ticks) s

/-- Successive iterations of the loop of `glow`, one per input `(c1, ticks)`;
the result lists the command and state of every iteration. -/
def glow_run (LED : Nat) (threshold : Int) :
    List (Int × Nat) → GlowState → List (Option Nat × GlowState)
  | [], _ => []
  | (c1, ticks) :: rest, s =>
    let r := glow_body LED threshold c1 ticks s
    r :: glow_run LED threshold rest r.2

/-- Function `void glow(uint8_t LED, float brightness)` on a finite run of its loop:
`threshold` from the brightness, `is_on = 0`. -/
def glow (LED : Nat) (brightness : F32) (inputs : List (Int × Nat)) (PORTL : Nat) :
    List (Option Nat × GlowState) :=
  glow_run LED (glow_threshold brightness) inputs ⟨0, PORTL⟩

/-! ## Pulsing brightness controller `pulse_glow` -/

/-- Variables of `pulse_glow`: `threshold`, `fade_in` and the
`static int last_slow_count`. -/
structure PulseState where
  threshold : Int
  fade_in : Int
  last_slow_count : Int
deriving DecidableEq, Repr

/-- Initial values: `threshold = 0`, `fade_in = 1`, `last_slow_count = -1`. -/
def pulse_init : PulseState := ⟨0, 1, -1⟩

/-- Lines `threshold += fade_in; if (threshold >= PWM_PERIOD) ... else if
(threshold <= 0) ...` on `(threshold, fade_in)`.  (`int` addition; no overflow
for `|threshold| < 32767`.) -/
def ramp_step (s : Int × Int) : Int × Int :=
  let threshold := s.1 + s.2
  if threshold ≥ PWM_PERIOD then
    (PWM_PERIOD, -1)
  else if threshold ≤ 0 then
    (0, 1)
  else
    (threshold, s.2)

/-- State `(threshold, fade_in)` after `n` ramp steps from `(0, 1)`. -/
def ramp_after (n : Nat) : Int × Int := ramp_step^[n] (0, 1)

/-- The `if (slow_count != last_slow_count) { ... }` statement of one outer
iteration: `sc1` is the value of `slow_count` read by the comparison, `sc2`
the value read by `last_slow_count = slow_count`, which is converted to
`int`. -/
def pulse_update (sc1 sc2 : Int) (s : PulseState) : PulseState :=
  if sc1 ≠ s.last_slow_count then
    let r := ramp_step (s.threshold, s.fade_in)
    ⟨r.1, r.2, to_int16 sc2⟩
  else
    s

/-- Successive outer iterations of `pulse_glow`, one per value of `slow_count`
read (both reads of an iteration see the same value); only the update
statement is tracked. -/
def pulse_run (reads : List Int) (s : PulseState) : PulseState :=
  reads.foldl (fun st v => pulse_update v v st) s

/-- The inner loop `for (int count = 0; count < PWM_PERIOD; count++)` of
`pulse_glow` over the counter values still to visit: for every step the state
passed to `led_state` and the register value after the call. -/
def pwm_scan_steps (LED : Nat) (threshold : Int) : List Nat → Nat → List (Nat × Nat)
  | [], _ => []
  | count :: rest, PORTL =>
    let state := if (count : Int) < threshold then 1 else 0
    let P1 := led_state LED state PORTL
    (state, P1) :: pwm_scan_steps LED threshold rest P1

/-- One full inner PWM scan of `pulse_glow`. -/
def pwm_scan (LED : Nat) (threshold : Int) (PORTL : Nat) : List (Nat × Nat) :=
  pwm_scan_steps LED threshold (List.range PWM_PERIOD.toNat) PORTL

/-! ## Pin mapping -/

/-- The mask `1<<(7-(LED*2))` computed by `led_state`, as stored in the
`uint8_t mask`. -/
def led_mask (LED : Nat) : Nat := (1 <<< (7 - LED * 2)) % 256

/-- The value written by `DDRL = 0b10101010;` in `main`. -/
def DDRL_main : Nat := 0b10101010

/-- Arguments `(LED, state)` of the `led_state` calls made by the loop
`for(uint8_t j = 0; j < 4; j++) led_state(j, (pattern >> j) & 1);`, in order. -/
def leds_write_args (pattern : Nat) : List (Nat × Nat) :=
  (List.range 4).map (fun j => (j, (pattern >>> j) &&& 1))

/-- Arguments `(LED, state)` of the `led_state` calls made by the loop
`for(uint8_t j = 0; j < 4; j++) led_state(j, 0);`, in order. -/
def leds_off_args : List (Nat × Nat) :=
  (List.range 4).map (fun j => (j, 0))

/-! ## Pattern player `light_show` -/

/-- Array `light` of `light_show`. -/
def light_show_light : List Nat :=
  [0b00001111, 0b00000000, 0b00001111, 0b00000000, 0b00001111, 0b00000000,
   0b00000110, 0b00000000, 0b00001001, 0b00000000, 0b00001111, 0b00000000,
   0b00001111, 0b00000000, 0b00001111, 0b00000000, 0b00001001, 0b00000000,
   0b00000110, 0b00000000, 0b00001000, 0b00001100, 0b00000110, 0b00000011,
   0b00000001, 0b00000011, 0b00000110, 0b00001100, 0b00001000, 0b00001100,
   0b00000110, 0b00000011, 0b00000001, 0b00000011, 0b00000110, 0b00001111,
   0b00000000, 0b00001111, 0b00000000, 0b00000110, 0b00000000, 0b00000110,
   0b00000000]

/-- Array `duration` of `light_show`. -/
def light_show_duration : List Int :=
  [250, 250, 250, 250, 250, 250,
   100, 100, 100, 100, 250, 250,
   250, 250, 250, 250, 100, 100,
   100, 100, 100, 100, 100, 100,
   100, 100, 100, 100, 100, 100,
   100, 100, 100, 100, 100, 250,
   250, 250, 250, 250, 250, 250,
   250]

/-- Body of the `for` loop of `light_show`: the pattern is always written,
held, and the LEDs are turned off only `if (pattern != 0b00000000)`. -/
def light_show_body (pattern : Nat) (duration : Int) (PORTL : Nat) : Hold × Nat :=
  let P1 := leds_write pattern PORTL
  (⟨P1, duration⟩, if pattern ≠ 0 then leds_off P1 else P1)

/-- The loop `for(int i = 0; i < length; i++)` of `light_show` over the indices
still to visit; an index outside either array gives `none`. -/
def light_show_loop (light : List Nat) (duration : List Int) :
    List Nat → Nat → Option (List Hold × Nat)
  | [], PORTL => some ([], PORTL)
  | i :: rest, PORTL =>
    match light[i]?, duration[i]? with
    | some pattern, some d =>
      let step := light_show_body pattern d PORTL
      match light_show_loop light duration rest step.2 with
      | some (holds, final) => some (step.1 :: holds, final)
      | none => none
    | _, _ => none

/-- Function `void light_show()`: `int length = 43`. -/
def light_show (PORTL : Nat) : Option (List Hold × Nat) :=
  light_show_loop light_show_light light_show_duration (List.range 43) PORTL

/-! ## Observations of a playback -/

/-- What is seen during a hold: the states of LED0..LED3 and the duration. -/
def Hold.obs (h : Hold) : List Bool × Int := (led_bits h.PORTL, h.ms)

/-- The LED states a mask asks for: bit `j` of the mask for LED `j`. -/
def pattern_bits (pattern : Nat) : List Bool :=
  [pattern.testBit 0, pattern.testBit 1, pattern.testBit 2, pattern.testBit 3]

/-- The sequence of (LED states, duration) that the table entries at the given
indices ask for. -/
def table_trace (light : List Nat) (duration : List Int) (idxs : List Nat) :
    List (List Bool × Int) :=
  idxs.map (fun i => (pattern_bits (light.getD i 0), duration.getD i 0))

/-! ## Reference loop for `glow` without write suppression -/

/-- State commanded by each iteration of `glow`: 1 when the value read by the
comparison is below the threshold, else 0. -/
def glow_commanded (threshold : Int) (inputs : List (Int × Nat)) : List Nat :=
  inputs.map (fun x => if count_after x.1 x.2 < threshold then 1 else 0)

/-- Reference loop following the specification's words: every iteration
writes the commanded state with `led_state`, whatever the previous state; the
result lists the register value after every iteration. -/
def glow_unconditional_run (LED : Nat) (threshold : Int) :
    List (Int × Nat) → Nat → List Nat
  | [], _ => []
  | (c1, ticks) :: rest, PORTL =>
    let P1 := led_state LED (if count_after c1 ticks < threshold then 1 else 0) PORTL
    P1 :: glow_unconditional_run LED threshold rest P1

/-- Reference for the writes of `glow`: a commanded state is written exactly
when it differs from the previous one (`prev`). -/
def writes_on_change : Nat → List Nat → List (Option Nat)
  | _, [] => []
  | prev, c :: rest => (if c ≠ prev then some c else none) :: writes_on_change c rest

/-! # Theorems -/

/-! ## The LED driver sets or clears exactly its own bit -/

theorem testBit_of_lt_256 (r j : Nat) (hr : r < 256) (hj : 8 ≤ j) : r.testBit j = false := by
  apply Nat.testBit_eq_false_of_lt
  calc r < 2 ^ 8 := hr
    _ ≤ 2 ^ j := Nat.pow_le_pow_right (by norm_num) hj

theorem led_mask_eq (i : Nat) (hi : i < 4) : (1 <<< (7 - i * 2)) % 256 = 2 ^ (7 - 2 * i) := by
  interval_cases i <;> decide

theorem testBit_not_mask (k j : Nat) (hk : k < 8) (hj : j < 8) :
    (65535 - 2 ^ k).testBit j = decide (j ≠ k) := by
  interval_cases k <;> interval_cases j <;> decide

theorem led_state_lt (i s r : Nat) : led_state i s r < 256 := by
  unfold led_state
  simp only
  split <;> exact Nat.mod_lt _ (by norm_num)

theorem led_state_on_eq (i s r : Nat) (hs : s ≠ 0) (hi : i < 4) (hr : r < 256) :
    led_state i s r = r ||| 2 ^ (7 - 2 * i) := by
  unfold led_state
  simp only [led_mask_eq i hi, hs, ne_eq, not_false_eq_true, if_true]
  apply Nat.mod_eq_of_lt
  have h1 : (2 : Nat) ^ (7 - 2 * i) < 2 ^ 8 := Nat.pow_lt_pow_right (by norm_num) (by omega)
  exact Nat.or_lt_two_pow (by simpa using hr) h1

theorem led_state_off_eq (i r : Nat) (hi : i < 4) (hr : r < 256) :
    led_state i 0 r = r &&& (65535 - 2 ^ (7 - 2 * i)) := by
  unfold led_state
  simp only [led_mask_eq i hi, ne_eq, not_true_eq_false, if_false]
  apply Nat.mod_eq_of_lt
  exact lt_of_le_of_lt Nat.and_le_left hr

theorem led_state_testBit_self (i s r : Nat) (hi : i < 4) (hr : r < 256) :
    (led_state i s r).testBit (7 - 2 * i) = decide (s ≠ 0) := by
  by_cases hs : s = 0
  · subst hs
    rw [led_state_off_eq i r hi hr, Nat.testBit_and, testBit_not_mask _ _ (by omega) (by omega)]
    simp
  · rw [led_state_on_eq i s r hs hi hr, Nat.testBit_or, Nat.testBit_two_pow_self]
    simp [hs]

theorem led_state_testBit_other (i s r j : Nat) (hi : i < 4) (hr : r < 256)
    (hj : j ≠ 7 - 2 * i) : (led_state i s r).testBit j = r.testBit j := by
  by_cases hj8 : 8 ≤ j
  · rw [testBit_of_lt_256 _ j (led_state_lt i s r) hj8, testBit_of_lt_256 _ j hr hj8]
  · by_cases hs : s = 0
    · subst hs
      rw [led_state_off_eq i r hi hr, Nat.testBit_and,
        testBit_not_mask _ _ (by omega) (by omega)]
      simp [hj]
    · rw [led_state_on_eq i s r hs hi hr, Nat.testBit_or, Nat.testBit_two_pow]
      have hne : ¬ (7 - 2 * i = j) := fun h => hj h.symm
      simp [hne]

/-- C1: for every LED index `i < 4`, 8-bit register value `r` and state
argument `s`, `led_state(i, s)` leaves an 8-bit register value whose bit
`7 - 2*i` is set exactly when `s ≠ 0`, and whose every other bit is the bit
of `r`. -/
theorem led_state_exact_bit (i r s : Nat) (hi : i < 4) (hr : r < 256) :
    led_state i s r < 256 ∧
    (led_state i s r).testBit (7 - 2 * i) = decide (s ≠ 0) ∧
    ∀ j, j ≠ 7 - 2 * i → (led_state i s r).testBit j = r.testBit j :=
  ⟨led_state_lt i s r, led_state_testBit_self i s r hi hr,
    fun j hj => led_state_testBit_other i s r j hi hr hj⟩

/-- C1 at LED 2, register `0b10100010`, state 1: bit 3 becomes set. -/
theorem led_state_exact_bit_witness :
    2 < 4 ∧ 162 < 256 ∧ (led_state 2 1 162 < 256 ∧
      (led_state 2 1 162).testBit (7 - 2 * 2) = decide (1 ≠ 0) ∧
      ∀ j, j ≠ 7 - 2 * 2 → (led_state 2 1 162).testBit j = Nat.testBit 162 j) :=
  ⟨by decide, by decide, led_state_exact_bit 2 162 1 (by decide) (by decide)⟩

/-! ## The ramp of `pulse_glow` -/

theorem ramp_after_succ (n : Nat) : ramp_after (n + 1) = ramp_step (ramp_after n) := by
  unfold ramp_after
  rw [Function.iterate_succ_apply']

/-- Closed form of the state after `n` ramp steps. -/
theorem ramp_after_eq (n : Nat) :
    ramp_after n =
      ((if n % 1000 ≤ 500 then ((n % 1000 : Nat) : Int) else 1000 - ((n % 1000 : Nat) : Int)),
        (if n % 1000 < 500 then 1 else -1)) := by
  induction n with
  | zero => simp [ramp_after]
  | succ n ih =>
    rw [ramp_after_succ, ih]
    unfold ramp_step PWM_PERIOD
    have hm : n % 1000 < 1000 := Nat.mod_lt _ (by norm_num)
    by_cases h999 : n % 1000 = 999
    · have h1 : (n + 1) % 1000 = 0 := by omega
      simp [h1, h999]
    · have h1 : (n + 1) % 1000 = n % 1000 + 1 := by omega
      rw [h1]
      generalize n % 1000 = m at *
      simp only
      clear h1 ih
      split_ifs <;> refine Prod.ext ?_ ?_ <;> simp only <;> omega

/-- C2: from threshold 0 and direction +1, after `n` detected slow ticks the
threshold is `m` when `m ≤ 500` and `1000 - m` otherwise, `m = n mod 1000`;
each tick changes the threshold by exactly 1, the direction is always +1 or
-1, it flips from +1 to -1 exactly at the ticks that bring the threshold to
500 and from -1 to +1 exactly at those that bring it to 0, and the state
repeats with period 1000 ticks. -/
theorem pulse_ramp_triangle (n : Nat) :
    (ramp_after n).1 =
      (if n % 1000 ≤ 500 then ((n % 1000 : Nat) : Int) else 1000 - ((n % 1000 : Nat) : Int)) ∧
    ((ramp_after (n + 1)).1 = (ramp_after n).1 + 1 ∨
      (ramp_after (n + 1)).1 = (ramp_after n).1 - 1) ∧
    ((ramp_after n).2 = 1 ∨ (ramp_after n).2 = -1) ∧
    (((ramp_after n).2 = 1 ∧ (ramp_after (n + 1)).2 = -1) ↔ (ramp_after (n + 1)).1 = 500) ∧
    (((ramp_after n).2 = -1 ∧ (ramp_after (n + 1)).2 = 1) ↔ (ramp_after (n + 1)).1 = 0) ∧
    ramp_after (n + 1000) = ramp_after n := by
  have hper : ramp_after (n + 1000) = ramp_after n := by
    rw [ramp_after_eq, ramp_after_eq, Nat.add_mod_right]
  refine ⟨by rw [ramp_after_eq], ?_, ?_, ?_, ?_, hper⟩
  all_goals
    simp only [ramp_after_eq]
    have hm : n % 1000 < 1000 := Nat.mod_lt _ (by norm_num)
    by_cases h999 : n % 1000 = 999
    · have h1 : (n + 1) % 1000 = 0 := by omega
      simp [h1, h999]
    · have h1 : (n + 1) % 1000 = n % 1000 + 1 := by omega
      try rw [h1]
      generalize n % 1000 = m at *
      split_ifs <;> first | omega | (simp; done) | (simp; omega)

theorem ramp_step_inv (t d : Int) (hd : d = 1 ∨ d = -1) :
    0 ≤ (ramp_step (t, d)).1 ∧ (ramp_step (t, d)).1 ≤ PWM_PERIOD ∧
      ((ramp_step (t, d)).2 = 1 ∨ (ramp_step (t, d)).2 = -1) := by
  unfold ramp_step PWM_PERIOD at *
  simp only
  split_ifs <;> refine ⟨?_, ?_, ?_⟩ <;> simp only <;> first | omega | simp

theorem ramp_after_inv (n : Nat) :
    0 ≤ (ramp_after n).1 ∧ (ramp_after n).1 ≤ PWM_PERIOD ∧
      ((ramp_after n).2 = 1 ∨ (ramp_after n).2 = -1) := by
  induction n with
  | zero => simp [ramp_after, PWM_PERIOD]
  | succ n ih =>
    rw [ramp_after_succ]
    exact ramp_step_inv _ _ ih.2.2

/-- C3: the ramp step preserves the range: from a threshold in
`[0, PWM_PERIOD]` and a direction in `{+1, -1}` one detected tick gives again
a threshold in `[0, PWM_PERIOD]` and a direction in `{+1, -1}`; hence in
every state reached from `(0, +1)` the threshold is in `[0, PWM_PERIOD]`.
(The step clamps at both bounds, so the range of `t` is needed only to keep
the 16-bit `int` addition of the program from overflowing.) -/
theorem ramp_step_preserves_range (t d : Int) (_h0 : 0 ≤ t) (_h1 : t ≤ PWM_PERIOD)
    (hd : d = 1 ∨ d = -1) :
    (0 ≤ (ramp_step (t, d)).1 ∧ (ramp_step (t, d)).1 ≤ PWM_PERIOD ∧
      ((ramp_step (t, d)).2 = 1 ∨ (ramp_step (t, d)).2 = -1)) ∧
    ∀ n, 0 ≤ (ramp_after n).1 ∧ (ramp_after n).1 ≤ PWM_PERIOD :=
  ⟨ramp_step_inv t d hd, fun n => ⟨(ramp_after_inv n).1, (ramp_after_inv n).2.1⟩⟩

/-- C3 at threshold 500, direction +1 (the upper bound). -/
theorem ramp_step_preserves_range_witness :
    (0 : Int) ≤ 500 ∧ (500 : Int) ≤ PWM_PERIOD ∧ ((1 : Int) = 1 ∨ (1 : Int) = -1) ∧
    ((0 ≤ (ramp_step (500, 1)).1 ∧ (ramp_step (500, 1)).1 ≤ PWM_PERIOD ∧
      ((ramp_step (500, 1)).2 = 1 ∨ (ramp_step (500, 1)).2 = -1)) ∧
    ∀ n, 0 ≤ (ramp_after n).1 ∧ (ramp_after n).1 ≤ PWM_PERIOD) :=
  ⟨by decide, by decide, Or.inl rfl,
    ramp_step_preserves_range 500 1 (by decide) (by decide) (Or.inl rfl)⟩

/-! ## The inner PWM scan of `pulse_glow` -/

/-- States passed to `led_state` by the scan steps do not depend on the
register. -/
theorem pwm_scan_steps_cmds (LED : Nat) (t : Int) (cs : List Nat) (P : Nat) :
    (pwm_scan_steps LED t cs P).map Prod.fst =
      cs.map (fun (count : Nat) => if (count : Int) < t then (1 : Nat) else 0) := by
  induction cs generalizing P with
  | nil => rfl
  | cons c rest ih => simp [pwm_scan_steps, ih]

theorem pwm_scan_cmds (LED : Nat) (t : Int) (P : Nat) :
    (pwm_scan LED t P).map Prod.fst =
      (List.range 500).map (fun (count : Nat) => if (count : Int) < t then (1 : Nat) else 0) := by
  unfold pwm_scan
  rw [pwm_scan_steps_cmds]
  rfl

theorem range_map_threshold (n t : Nat) (ht : t ≤ n) :
    (List.range n).map (fun (count : Nat) => if (count : Int) < (t : Int) then (1 : Nat) else 0) =
      List.replicate t 1 ++ List.replicate (n - t) 0 := by
  apply List.ext_getElem
  · simp; omega
  · intro k h1 h2
    simp at h1
    simp only [List.getElem_map, List.getElem_range]
    by_cases hk : k < t
    · rw [List.getElem_append_left (by simpa using hk)]
      simp [hk]
    · rw [List.getElem_append_right (by simpa using hk)]
      simp [hk]

/-- Every scan step calls `led_state` on the given LED with the commanded
state, on the register left by the step before (the entry register for the
first step). -/
theorem pwm_scan_steps_step (LED : Nat) (t : Int) (cs : List Nat) (P k c : Nat)
    (hc : cs[k]? = some c) :
    ∃ before, (P :: (pwm_scan_steps LED t cs P).map Prod.snd)[k]? = some before ∧
      (P < 256 → before < 256) ∧
      (pwm_scan_steps LED t cs P)[k]? =
        some (if (c : Int) < t then 1 else 0,
          led_state LED (if (c : Int) < t then 1 else 0) before) := by
  induction cs generalizing P k with
  | nil => simp at hc
  | cons c0 rest ih =>
    cases k with
    | zero =>
      have hc0 : c0 = c := by simpa using hc
      subst hc0
      exact ⟨P, by simp, fun h => h, by simp [pwm_scan_steps]⟩
    | succ k =>
      have hc1 : rest[k]? = some c := by simpa using hc
      obtain ⟨before, h1, h2, h3⟩ :=
        ih (led_state LED (if (c0 : Int) < t then 1 else 0) P) k hc1
      have hlt : before < 256 := h2 (led_state_lt _ _ _)
      refine ⟨before, ?_, fun _ => hlt, ?_⟩
      · simpa [pwm_scan_steps] using h1
      · simpa [pwm_scan_steps] using h3

/-- C4: in one inner PWM scan of `pulse_glow` with threshold `t`, the scan has
500 steps; step `k < 500` calls `led_state` on the LED of `pulse_glow`, on the
register left by the step before, with state 1 (on) if and only if `k < t`
and state 0 otherwise, so for an LED index in `{0,1,2,3}` and an 8-bit
register the LED bit after step `k` is set if and only if `k < t`; hence for
`0 ≤ t ≤ 500` the commands are `t` times on followed by `500 - t` times off,
so exactly `t` steps command the LED on and they are the first `t`. -/
theorem pwm_scan_on_iff_below_threshold (LED : Nat) (t : Int) (P : Nat) :
    (pwm_scan LED t P).length = 500 ∧
    (∀ k : Nat, k < 500 →
      ((pwm_scan LED t P).map Prod.fst)[k]? = some (if (k : Int) < t then (1 : Nat) else 0)) ∧
    (0 ≤ t → t ≤ 500 →
      (pwm_scan LED t P).map Prod.fst =
          List.replicate t.toNat 1 ++ List.replicate (500 - t.toNat) 0 ∧
        ((pwm_scan LED t P).map Prod.fst).count 1 = t.toNat) ∧
    (∀ k : Nat, k < 500 →
      ∃ before, (P :: (pwm_scan LED t P).map Prod.snd)[k]? = some before ∧
        (pwm_scan LED t P)[k]? =
          some (if (k : Int) < t then 1 else 0,
            led_state LED (if (k : Int) < t then 1 else 0) before)) ∧
    (LED < 4 → P < 256 → ∀ k : Nat, k < 500 →
      ∃ state after, (pwm_scan LED t P)[k]? = some (state, after) ∧
        (state ≠ 0 ↔ (k : Int) < t) ∧
        after.testBit (7 - 2 * LED) = decide ((k : Int) < t)) := by
  have hlen : (pwm_scan LED t P).length = 500 := by
    have := congrArg List.length (pwm_scan_cmds LED t P)
    simpa using this
  have hstep : ∀ k : Nat, k < 500 →
      ∃ before, (P :: (pwm_scan LED t P).map Prod.snd)[k]? = some before ∧
        (P < 256 → before < 256) ∧
        (pwm_scan LED t P)[k]? =
          some (if (k : Int) < t then 1 else 0,
            led_state LED (if (k : Int) < t then 1 else 0) before) := by
    intro k hk
    have hr : (List.range PWM_PERIOD.toNat)[k]? = some k := by
      have h500 : PWM_PERIOD.toNat = 500 := rfl
      rw [h500, List.getElem?_range hk]
    exact pwm_scan_steps_step LED t (List.range PWM_PERIOD.toNat) P k k hr
  refine ⟨hlen, ?_, ?_, ?_, ?_⟩
  · intro k hk
    rw [pwm_scan_cmds]
    simp [hk]
  · intro h0 h1
    have ht : ((t.toNat : Nat) : Int) = t := Int.toNat_of_nonneg h0
    have hle : t.toNat ≤ 500 := by omega
    have heq : (pwm_scan LED t P).map Prod.fst =
        List.replicate t.toNat 1 ++ List.replicate (500 - t.toNat) 0 := by
      rw [pwm_scan_cmds]
      have := range_map_threshold 500 t.toNat hle
      rw [ht] at this
      exact this
    refine ⟨heq, ?_⟩
    rw [heq]
    simp [List.count_replicate]
  · intro k hk
    obtain ⟨before, h1, _, h3⟩ := hstep k hk
    exact ⟨before, h1, h3⟩
  · intro hL hP k hk
    obtain ⟨before, _, h2, h3⟩ := hstep k hk
    refine ⟨_, _, h3, ?_, ?_⟩
    · by_cases hc : (k : Int) < t <;> simp [hc]
    · rw [led_state_testBit_self LED _ before hL (h2 hP)]
      by_cases hc : (k : Int) < t <;> simp [hc]

/-- C4 at threshold 200, LED 3, register 0. -/
theorem pwm_scan_on_iff_below_threshold_witness :
    ((0 : Int) ≤ 200 ∧ (200 : Int) ≤ 500 ∧
      ((pwm_scan 3 200 0).map Prod.fst =
          List.replicate (200 : Int).toNat 1 ++ List.replicate (500 - (200 : Int).toNat) 0 ∧
        ((pwm_scan 3 200 0).map Prod.fst).count 1 = (200 : Int).toNat)) ∧
    (3 < 4 ∧ 0 < 256 ∧ 199 < 500 ∧
      ∃ state after, (pwm_scan 3 200 0)[199]? = some (state, after) ∧
        (state ≠ 0 ↔ ((199 : Nat) : Int) < 200) ∧
        after.testBit (7 - 2 * 3) = decide (((199 : Nat) : Int) < 200)) :=
  ⟨⟨by decide, by decide,
      (pwm_scan_on_iff_below_threshold 3 200 0).2.2.1 (by decide) (by decide)⟩,
    ⟨by decide, by decide, by decide,
      (pwm_scan_on_iff_below_threshold 3 200 0).2.2.2.2 (by decide) (by decide) 199
        (by decide)⟩⟩

/-! ## One iteration of `glow` -/

theorem count_after_zero (c1 : Int) : count_after c1 0 = (glow_wrap c1).getD c1 := rfl

theorem TIMER1_iterate (k : Nat) (c : Int) : TIMER1_COMPA^[k] c = c + k := by
  induction k generalizing c with
  | zero => simp
  | succ k ih =>
    rw [Function.iterate_succ_apply, ih]
    unfold TIMER1_COMPA
    push_cast
    ring

theorem count_after_eq (c1 : Int) (ticks : Nat) :
    count_after c1 ticks = (if c1 ≥ PWM_PERIOD then 0 else c1) + ticks := by
  unfold count_after glow_wrap
  rw [TIMER1_iterate]
  split_ifs <;> rfl

/-- After the comparison statement the LED bit tells whether the value read
was below the threshold, provided `is_on` mirrored the bit before. -/
theorem glow_branch_bit (LED r is_on : Nat) (threshold c2 : Int) (hL : LED < 4)
    (hr : r < 256) (hon : is_on = if r.testBit (7 - 2 * LED) then 1 else 0) :
    (glow_branch LED threshold c2 ⟨is_on, r⟩).2.PORTL.testBit (7 - 2 * LED) =
      decide (c2 < threshold) := by
  unfold glow_branch
  by_cases hb : r.testBit (7 - 2 * LED) = true
  · have h1 : is_on = 1 := by simp [hon, hb]
    subst h1
    by_cases hc : c2 < threshold
    · simp [hc, hb]
    · simp [hc, led_state_testBit_self LED 0 r hL hr]
  · have h0 : is_on = 0 := by simp [hon, hb]
    subst h0
    by_cases hc : c2 < threshold
    · simp [hc, led_state_testBit_self LED 1 r hL hr]
    · simp [hc, hb]

/-- C5 (counterexample): one iteration of `glow(2, ...)` with threshold 250,
LED on (`is_on = 1`, bit 3 set).  The wrap check observes `c = 249`, so the
counter is not written and `c' = 249 < 250`; one fast interrupt occurs before
the comparison, which reads 250, and the iteration clears the LED bit
although `c' < threshold`. -/
theorem glow_iteration_interrupt_clears_bit :
    (1 = if Nat.testBit 8 (7 - 2 * 2) then 1 else 0) ∧
    glow_wrap 249 = none ∧ count_after 249 0 = 249 ∧ count_after 249 0 < 250 ∧
    count_after 249 1 = 250 ∧
    glow_body 2 250 249 1 ⟨1, 8⟩ = (some 0, ⟨0, 0⟩) ∧
    (glow_body 2 250 249 1 ⟨1, 8⟩).2.PORTL.testBit (7 - 2 * 2) = false := by
  decide

/-- C5 (amended): one iteration of the loop of `glow` whose wrap check
observes the fast-counter value `c ≥ 0`, with `is_on` equal to the LED bit
before it: if `c ≥ 500` the counter is written with 0 and the iteration
proceeds with `c' = 0`, otherwise the counter is not written and `c' = c`;
the threshold comparison reads `c'` plus the number of fast interrupts since
the wrap check, and after the iteration the LED bit is set if and only if
that value is below the threshold; so it is set if and only if
`c' < threshold` when no interrupt occurs between the two reads. -/
theorem glow_iteration_bit_iff (LED r is_on : Nat) (threshold c : Int) (ticks : Nat)
    (hL : LED < 4) (hr : r < 256) (_hc : 0 ≤ c)
    (hon : is_on = if r.testBit (7 - 2 * LED) then 1 else 0) :
    (c ≥ 500 → glow_wrap c = some 0 ∧ count_after c 0 = 0) ∧
    (c < 500 → glow_wrap c = none ∧ count_after c 0 = c) ∧
    count_after c ticks = count_after c 0 + ticks ∧
    (glow_body LED threshold c ticks ⟨is_on, r⟩).2.PORTL.testBit (7 - 2 * LED) =
      decide (count_after c 0 + ticks < threshold) ∧
    (glow_body LED threshold c 0 ⟨is_on, r⟩).2.PORTL.testBit (7 - 2 * LED) =
      decide (count_after c 0 < threshold) := by
  have hsum : count_after c ticks = count_after c 0 + ticks := by
    rw [count_after_eq, count_after_eq]
    simp
  refine ⟨?_, ?_, hsum, ?_, ?_⟩
  · intro h
    have h1 : glow_wrap c = some 0 := by simp [glow_wrap, PWM_PERIOD, h]
    exact ⟨h1, by rw [count_after_zero, h1]; rfl⟩
  · intro h
    have h1 : glow_wrap c = none := by
      unfold glow_wrap PWM_PERIOD
      rw [if_neg (by omega)]
    exact ⟨h1, by rw [count_after_zero, h1]; rfl⟩
  · rw [← hsum]
    unfold glow_body
    exact glow_branch_bit LED r is_on threshold _ hL hr hon
  · unfold glow_body
    exact glow_branch_bit LED r is_on threshold _ hL hr hon

/-- C5 (amended) at LED 2, register 0 (LED off, `is_on = 0`), counter 700,
two interrupts and threshold 250: the counter wraps to 0, the comparison
reads 2 and the LED bit becomes set. -/
theorem glow_iteration_bit_iff_witness :
    2 < 4 ∧ 0 < 256 ∧ (0 : Int) ≤ 700 ∧ (0 = if Nat.testBit 0 (7 - 2 * 2) then 1 else 0) ∧
    (((700 : Int) ≥ 500 → glow_wrap 700 = some 0 ∧ count_after 700 0 = 0) ∧
    ((700 : Int) < 500 → glow_wrap 700 = none ∧ count_after 700 0 = 700) ∧
    count_after 700 2 = count_after 700 0 + (2 : Nat) ∧
    (glow_body 2 250 700 2 ⟨0, 0⟩).2.PORTL.testBit (7 - 2 * 2) =
      decide (count_after 700 0 + (2 : Nat) < 250) ∧
    (glow_body 2 250 700 0 ⟨0, 0⟩).2.PORTL.testBit (7 - 2 * 2) =
      decide (count_after 700 0 < 250)) :=
  ⟨by decide, by decide, by decide, by decide,
    glow_iteration_bit_iff 2 0 0 250 700 2 (by decide) (by decide) (by decide) (by decide)⟩

/-! ## The threshold computed by `glow` -/

/-- C6: for the brightness values 0, 0.01, 0.1, 0.5, 0.9 and 1.0 (each as the
`float` nearest to the decimal) the threshold computed by `glow` from
`PWM_PERIOD = 500` is 0, 5, 50, 250, 450 and 500. -/
theorem glow_threshold_table :
    (brightness_0.Nearest 0 ∧ glow_threshold brightness_0 = 0) ∧
    (brightness_0_01.Nearest (1 / 100) ∧ glow_threshold brightness_0_01 = 5) ∧
    (brightness_0_1.Nearest (1 / 10) ∧ glow_threshold brightness_0_1 = 50) ∧
    (brightness_0_5.Nearest (1 / 2) ∧ glow_threshold brightness_0_5 = 250) ∧
    (brightness_0_9.Nearest (9 / 10) ∧ glow_threshold brightness_0_9 = 450) ∧
    (brightness_1.Nearest 1 ∧ glow_threshold brightness_1 = 500) := by
  refine ⟨⟨⟨?_, ?_⟩, by decide⟩, ⟨⟨?_, ?_⟩, by decide⟩, ⟨⟨?_, ?_⟩, by decide⟩,
    ⟨⟨?_, ?_⟩, by decide⟩, ⟨⟨?_, ?_⟩, by decide⟩, ⟨⟨?_, ?_⟩, by decide⟩⟩
  · exact Or.inl ⟨rfl, rfl⟩
  · norm_num [F32.toRat, brightness_0]
  · exact Or.inr ⟨by decide, by decide, by decide⟩
  · rw [abs_le]; constructor <;> norm_num [F32.toRat, brightness_0_01]
  · exact Or.inr ⟨by decide, by decide, by decide⟩
  · rw [abs_le]; constructor <;> norm_num [F32.toRat, brightness_0_1]
  · exact Or.inr ⟨by decide, by decide, by decide⟩
  · rw [abs_le]; constructor <;> norm_num [F32.toRat, brightness_0_5]
  · exact Or.inr ⟨by decide, by decide, by decide⟩
  · rw [abs_le]; constructor <;> norm_num [F32.toRat, brightness_0_9]
  · exact Or.inr ⟨by decide, by decide, by decide⟩
  · rw [abs_le]; constructor <;> norm_num [F32.toRat, brightness_1]


theorem bitlen_fuel_zero_arg (fuel : Nat) : bitlen_fuel fuel 0 = 0 := by
  cases fuel <;> simp [bitlen_fuel]

theorem bitlen_fuel_spec (fuel p : Nat) (h : p ≤ fuel) :
    p < 2 ^ bitlen_fuel fuel p ∧ (p ≠ 0 → 2 ^ (bitlen_fuel fuel p - 1) ≤ p) := by
  induction fuel generalizing p with
  | zero =>
    have : p = 0 := by omega
    subst this
    simp [bitlen_fuel]
  | succ fuel ih =>
    by_cases hp : p = 0
    · subst hp
      simp [bitlen_fuel]
    · have hle : p / 2 ≤ fuel := by omega
      obtain ⟨h1, h2⟩ := ih (p / 2) hle
      have hdef : bitlen_fuel (fuel + 1) p = bitlen_fuel fuel (p / 2) + 1 := by
        simp [bitlen_fuel, hp]
      rw [hdef]
      refine ⟨?_, fun _ => ?_⟩
      · rw [pow_succ]
        omega
      · simp only [Nat.add_sub_cancel]
        by_cases hhalf : p / 2 = 0
        · rw [hhalf, bitlen_fuel_zero_arg]
          simp
          omega
        · have h3 := h2 hhalf
          have hpos : 0 < bitlen_fuel fuel (p / 2) := by
            by_contra hc
            have : bitlen_fuel fuel (p / 2) = 0 := by omega
            rw [this] at h1
            simp at h1
            exact hhalf h1
          have h4 : bitlen_fuel fuel (p / 2) = (bitlen_fuel fuel (p / 2) - 1) + 1 := by omega
          rw [h4, pow_succ]
          omega

/-- The significant bits of `p`: `2^(bitlen p - 1) ≤ p < 2^(bitlen p)`. -/
theorem bitlen_spec (p : Nat) :
    p < 2 ^ bitlen p ∧ (p ≠ 0 → 2 ^ (bitlen p - 1) ≤ p) :=
  bitlen_fuel_spec p p (le_refl p)

theorem two_zpow_neg_nat (j : Nat) : (2 : ℚ) ^ (-(j : Int)) = 1 / 2 ^ j := by
  rw [zpow_neg, zpow_natCast, one_div]

/-- The conversion to `int` of a non-negative value is its floor. -/
theorem f32_to_int_floor (y : F32) (hy : y.neg = false) : f32_to_int y = ⌊y.toRat⌋ := by
  obtain ⟨neg, m, e⟩ := y
  simp only at hy
  subst hy
  unfold f32_to_int F32.toRat
  simp only [Bool.false_eq_true, if_false, one_mul]
  by_cases he : 0 ≤ e
  · obtain ⟨n, hn⟩ := Int.eq_ofNat_of_zero_le he
    subst hn
    simp only [he, if_true, Int.toNat_ofNat, zpow_natCast]
    have : ((m : ℚ) * 2 ^ n) = ((m * 2 ^ n : Nat) : ℚ) := by push_cast; ring
    rw [this, Int.floor_natCast]
  · obtain ⟨j, hj⟩ := Int.eq_ofNat_of_zero_le (show 0 ≤ -e by omega)
    have he2 : e = -(j : Int) := by omega
    subst he2
    simp only [he, if_false, neg_neg, Int.toNat_ofNat, two_zpow_neg_nat]
    have : ((m : ℚ) * (1 / 2 ^ j)) = ((m : ℚ) / ((2 ^ j : Nat) : ℚ)) := by push_cast; ring
    rw [this, Rat.floor_natCast_div_natCast]
    rfl


/-- Rounding when the value needs more than 24 bits (`bitlen p = k + 24`,
`k ≥ 1`) and the exponent is `-(j + k) ≥ -149`: the result is `q / 2^j` or
`(q + 1) / 2^j` with `q = p / 2^k`. -/
theorem f32_round_shift (p k j : Nat) (hk : 0 < k) (hjk : j + k ≤ 149)
    (hbit : bitlen p = k + 24) :
    f32_round false p (-((j : Int) + k)) =
      if p % 2 ^ k > 2 ^ (k - 1) ∨ (p % 2 ^ k = 2 ^ (k - 1) ∧ p / 2 ^ k % 2 = 1) then
        ⟨false, p / 2 ^ k + 1, -(j : Int)⟩
      else
        ⟨false, p / 2 ^ k, -(j : Int)⟩ := by
  have hs : max (((bitlen p : Nat) : Int) - 24) (-149 - -((j : Int) + k)) = (k : Int) := by
    rw [hbit]
    push_cast
    rw [max_eq_left (by omega)]
    omega
  unfold f32_round
  simp only [hs, Int.toNat_ofNat]
  rw [if_neg (by omega)]
  have he : -((j : Int) + k) + k = -(j : Int) := by omega
  simp only [he]

/-- Rounding when at most 24 bits are needed: the value is kept. -/
theorem f32_round_exact (p : Nat) (e : Int) (he : -149 ≤ e) (hbit : bitlen p ≤ 24) :
    f32_round false p e = ⟨false, p, e⟩ := by
  unfold f32_round
  simp only
  rw [if_pos]
  apply max_le <;> omega

/-- Arithmetic of rounding down: `y = q / D` against `x = p / (D * K)` with
`p = K * q + r`, `r < K`. -/
theorem round_down_arith (p q r K D N : Nat) (hK : 0 < K) (hD : 0 < D)
    (hdiv : K * q + r = p) (hr : r < K) (hxN : p ≤ N * D * K) :
    ((q : ℚ) / D ≤ N) ∧ ⌊(p : ℚ) / (D * K)⌋ ≤ ⌊(q : ℚ) / D⌋ ∧
      ((⌊(q : ℚ) / D⌋ : Int) : ℚ) ≤ (p : ℚ) / (D * K) + 1 / 2 := by
  have hKq : (0 : ℚ) < K := by exact_mod_cast hK
  have hDq : (0 : ℚ) < D := by exact_mod_cast hD
  have hyx : (q : ℚ) / D ≤ (p : ℚ) / (D * K) := by
    rw [div_le_div_iff₀ hDq (by positivity)]
    have : (q : ℚ) * K ≤ p := by
      have : q * K ≤ p := by rw [← hdiv, Nat.mul_comm]; omega
      exact_mod_cast this
    nlinarith
  have hxN' : (p : ℚ) / (D * K) ≤ N := by
    rw [div_le_iff₀ (by positivity)]
    have : (p : ℚ) ≤ N * D * K := by exact_mod_cast hxN
    linarith
  refine ⟨le_trans hyx hxN', ?_, ?_⟩
  · -- the floor of x, times D, is at most q
    have hx0 : (0 : ℚ) ≤ (p : ℚ) / (D * K) := by positivity
    have hn0 : 0 ≤ ⌊(p : ℚ) / (D * K)⌋ := Int.floor_nonneg.mpr hx0
    obtain ⟨n, hn⟩ := Int.eq_ofNat_of_zero_le hn0
    rw [hn]
    apply Int.le_floor.mpr
    have h1 : ((n : Int) : ℚ) ≤ (p : ℚ) / (D * K) := by
      rw [← hn]; exact Int.floor_le _
    rw [le_div_iff₀ (by positivity)] at h1
    have h2 : n * (D * K) ≤ p := by exact_mod_cast h1
    have h3 : n * D ≤ q := by
      by_contra hc
      have h4 : q + 1 ≤ n * D := by omega
      have h5 : (q + 1) * K ≤ n * D * K := Nat.mul_le_mul_right K h4
      nlinarith
    rw [le_div_iff₀ hDq]
    exact_mod_cast h3
  · exact le_trans (Int.floor_le _) (by linarith)

/-- Arithmetic of rounding up: `y = (q + 1) / D` against `x = p / (D * K)`
with `p = K * q + r`, `K / 2 ≤ r < K`. -/
theorem round_up_arith (p q r K D N : Nat) (hK : 0 < K) (hD : 0 < D)
    (hdiv : K * q + r = p) (hr : r < K) (hhalf : K ≤ 2 * r) (hxN : p ≤ N * D * K) :
    (((q + 1 : Nat) : ℚ) / D ≤ N) ∧ ⌊(p : ℚ) / (D * K)⌋ ≤ ⌊((q + 1 : Nat) : ℚ) / D⌋ ∧
      ((⌊((q + 1 : Nat) : ℚ) / D⌋ : Int) : ℚ) ≤ (p : ℚ) / (D * K) + 1 / 2 := by
  have hKq : (0 : ℚ) < K := by exact_mod_cast hK
  have hDq : (0 : ℚ) < D := by exact_mod_cast hD
  have hD1 : (1 : ℚ) ≤ D := by exact_mod_cast hD
  have hpq : (p : ℚ) = K * q + r := by exact_mod_cast hdiv.symm
  have hrq : (r : ℚ) < K := by exact_mod_cast hr
  have hhq : (K : ℚ) ≤ 2 * r := by exact_mod_cast hhalf
  refine ⟨?_, ?_, ?_⟩
  · rw [div_le_iff₀ hDq]
    have h1 : q + 1 ≤ N * D := by
      by_contra hc
      have h2 : N * D ≤ q := by omega
      have h3 : N * D * K ≤ q * K := Nat.mul_le_mul_right K h2
      nlinarith
    exact_mod_cast h1
  · apply Int.floor_le_floor
    rw [div_le_div_iff₀ (by positivity) hDq]
    push_cast
    nlinarith
  · have hfl : ((⌊((q + 1 : Nat) : ℚ) / D⌋ : Int) : ℚ) ≤ ((q + 1 : Nat) : ℚ) / D :=
      Int.floor_le _
    have hn0 : 0 ≤ ⌊((q + 1 : Nat) : ℚ) / D⌋ := Int.floor_nonneg.mpr (by positivity)
    obtain ⟨t, ht⟩ := Int.eq_ofNat_of_zero_le hn0
    rw [ht] at hfl ⊢
    rw [le_div_iff₀ hDq] at hfl
    have h1 : t * D ≤ q + 1 := by exact_mod_cast hfl
    have h1q : ((t : Int) : ℚ) * D ≤ q + 1 := by exact_mod_cast h1
    have hgoal : ((t : Int) : ℚ) * (D * K) ≤ p + D * K / 2 := by
      by_cases hc : t * D ≤ q
      · have hcq : ((t : Int) : ℚ) * D ≤ q := by exact_mod_cast hc
        nlinarith
      · have he : t * D = q + 1 := by omega
        have heq : ((t : Int) : ℚ) * D = q + 1 := by exact_mod_cast he
        nlinarith
    rw [← sub_le_iff_le_add, le_div_iff₀ (by positivity)]
    linarith


/-- Rounding a non-negative value `p * 2^e ≤ N` (with `N < 2^24` an integer)
to binary32: the result is non-negative, it does not exceed `N`, its floor is
at least the floor of the exact value, and its floor does not exceed the exact
value by more than one half. -/
theorem f32_round_bounds (p N : Nat) (e : Int) (he : -149 ≤ e) (hN : N < 2 ^ 24)
    (hx : (p : ℚ) * 2 ^ e ≤ N) :
    (f32_round false p e).neg = false ∧
    (f32_round false p e).toRat ≤ N ∧
    ⌊(p : ℚ) * 2 ^ e⌋ ≤ ⌊(f32_round false p e).toRat⌋ ∧
    ((⌊(f32_round false p e).toRat⌋ : Int) : ℚ) ≤ (p : ℚ) * 2 ^ e + 1 / 2 := by
  by_cases hbit : bitlen p ≤ 24
  · rw [f32_round_exact p e he hbit]
    simp only [F32.toRat, Bool.false_eq_true, if_false, one_mul]
    refine ⟨trivial, hx, le_refl _, ?_⟩
    exact le_trans (Int.floor_le _) (by linarith)
  · obtain ⟨k, hk⟩ : ∃ k, bitlen p = k + 24 := ⟨bitlen p - 24, by omega⟩
    have hkpos : 0 < k := by omega
    obtain ⟨_, hge⟩ := bitlen_spec p
    have hp0 : p ≠ 0 := by
      intro h0
      subst h0
      have : bitlen 0 = 0 := rfl
      omega
    have hlo : 2 ^ (k + 23) ≤ p := by
      have := hge hp0
      rw [hk] at this
      simpa using this
    have hloq : (2 : ℚ) ^ (k + 23) ≤ p := by exact_mod_cast hlo
    have hNq : (N : ℚ) < 2 ^ 24 := by exact_mod_cast hN
    -- the exponent of the last place after the shift is not positive
    have hek : e + k ≤ 0 := by
      by_contra hc
      have h1 : (1 : Int) - k ≤ e := by omega
      have h2 : (2 : ℚ) ^ ((1 : Int) - k) ≤ 2 ^ e := zpow_le_zpow_right₀ (by norm_num) h1
      have h3 : (2 : ℚ) ^ (k + 23) * 2 ^ ((1 : Int) - k) = 2 ^ 24 := by
        rw [← zpow_natCast, ← zpow_add₀ (by norm_num)]
        have : ((k + 23 : Nat) : Int) + (1 - (k : Int)) = ((24 : Nat) : Int) := by
          push_cast; ring
        rw [this, zpow_natCast]
      have h4 : (0 : ℚ) < 2 ^ e := zpow_pos (by norm_num) e
      have h5 : (0 : ℚ) < 2 ^ ((1 : Int) - k) := zpow_pos (by norm_num) _
      nlinarith
    obtain ⟨j, hj⟩ := Int.eq_ofNat_of_zero_le (show 0 ≤ -(e + k) by omega)
    have hej : e = -((j : Int) + k) := by omega
    subst hej
    have hpow : (2 : ℚ) ^ (-((j : Int) + k)) = 1 / ((2 ^ j : Nat) * (2 ^ k : Nat)) := by
      have : -((j : Int) + k) = -((j + k : Nat) : Int) := by push_cast; ring
      rw [this, two_zpow_neg_nat, pow_add]
      push_cast
      ring
    have hxeq : (p : ℚ) * 2 ^ (-((j : Int) + k)) = (p : ℚ) / ((2 ^ j : Nat) * (2 ^ k : Nat)) := by
      rw [hpow]; ring
    have hK : 0 < 2 ^ k := Nat.pow_pos (by norm_num)
    have hD : 0 < 2 ^ j := Nat.pow_pos (by norm_num)
    have hdiv : 2 ^ k * (p / 2 ^ k) + p % 2 ^ k = p := Nat.div_add_mod p (2 ^ k)
    have hr : p % 2 ^ k < 2 ^ k := Nat.mod_lt _ hK
    have hxN : p ≤ N * 2 ^ j * 2 ^ k := by
      rw [hxeq, div_le_iff₀ (by positivity)] at hx
      have : (p : ℚ) ≤ ((N * 2 ^ j * 2 ^ k : Nat) : ℚ) := by
        push_cast
        push_cast at hx
        linarith
      exact_mod_cast this
    have hyD : ∀ m : Nat, (F32.mk false m (-(j : Int))).toRat = (m : ℚ) / ((2 ^ j : Nat) : ℚ) := by
      intro m
      simp only [F32.toRat, Bool.false_eq_true, if_false, one_mul, two_zpow_neg_nat]
      push_cast
      ring
    rw [f32_round_shift p k j hkpos (by omega) hk, hxeq]
    split_ifs with hup
    · have hhalf : 2 ^ k ≤ 2 * (p % 2 ^ k) := by
        have h2 : 2 * 2 ^ (k - 1) = 2 ^ k := by
          have : k = (k - 1) + 1 := by omega
          conv_rhs => rw [this, pow_succ]
          ring
        rcases hup with h | ⟨h, _⟩ <;> omega
      rw [hyD]
      exact ⟨rfl, round_up_arith p _ _ _ _ N hK hD hdiv hr hhalf hxN⟩
    · rw [hyD]
      exact ⟨rfl, round_down_arith p _ _ _ _ N hK hD hdiv hr hxN⟩


theorem f32_of_long_period : f32_of_long PWM_PERIOD = ⟨false, 500, 0⟩ := by decide

theorem F32.toRat_nonneg_of_pos (y : F32) (hy : y.neg = false) : 0 ≤ y.toRat := by
  unfold F32.toRat
  rw [hy]
  simp only [Bool.false_eq_true, if_false, one_mul]
  positivity

/-- The threshold of `glow` for a zero brightness of either sign. -/
theorem glow_threshold_zero_man (neg : Bool) (e : Int) (he : -149 ≤ e) :
    f32_mul ⟨false, 500, 0⟩ ⟨neg, 0, e⟩ = ⟨neg, 0, e⟩ := by
  unfold f32_mul f32_round
  have hb : bitlen (500 * 0) = 0 := rfl
  simp only [hb, zero_add, Bool.false_bne]
  rw [if_pos]
  · apply max_le <;> omega

/-- C7 (counterexample): for the brightness 1/256 (a `float`, in `[0, 1]`) the
threshold computed by `glow` is 1, while the nearest integer to
`500 * (1/256) = 1.953125` is 2. -/
theorem glow_threshold_not_nearest :
    F32.toRat ⟨false, 8388608, -31⟩ = 1 / 256 ∧
    glow_threshold ⟨false, 8388608, -31⟩ = 1 ∧
    round (500 * F32.toRat ⟨false, 8388608, -31⟩) = 2 ∧
    glow_threshold ⟨false, 8388608, -31⟩ ≠ round (500 * F32.toRat ⟨false, 8388608, -31⟩) := by
  have hv : F32.toRat ⟨false, 8388608, -31⟩ = 1 / 256 := by
    norm_num [F32.toRat]
  have hr : round (500 * F32.toRat ⟨false, 8388608, -31⟩) = 2 := by
    rw [hv, round_eq, Int.floor_eq_iff]
    constructor <;> norm_num
  have ht : glow_threshold ⟨false, 8388608, -31⟩ = 1 := by decide
  refine ⟨hv, ht, hr, ?_⟩
  rw [ht, hr]
  decide

/-- C7 (amended): for every `float` brightness `b` with `0 ≤ b ≤ 1`, the
threshold computed by `glow` is the integer part (floor) of the
single-precision product `PWM_PERIOD * b`, not its nearest integer; it lies
in `[0, 500]`, is at least the floor of the exact product `500 * b` and at
most the nearest integer to it. -/
theorem glow_threshold_truncates (b : F32) (_hman : b.man < 2 ^ 24) (hexp : -149 ≤ b.exp)
    (h0 : 0 ≤ b.toRat) (h1 : b.toRat ≤ 1) :
    glow_threshold b = ⌊(f32_mul (f32_of_long PWM_PERIOD) b).toRat⌋ ∧
    0 ≤ glow_threshold b ∧ glow_threshold b ≤ 500 ∧
    ⌊500 * b.toRat⌋ ≤ glow_threshold b ∧ glow_threshold b ≤ round (500 * b.toRat) := by
  obtain ⟨neg, m, e⟩ := b
  simp only at hexp
  unfold glow_threshold
  rw [f32_of_long_period]
  by_cases hm : m = 0
  · subst hm
    rw [glow_threshold_zero_man neg e hexp]
    have hz : F32.toRat ⟨neg, 0, e⟩ = 0 := by simp [F32.toRat]
    have hi : f32_to_int ⟨neg, 0, e⟩ = 0 := by
      unfold f32_to_int
      simp
    rw [hz, hi]
    simp
  · have hneg : neg = false := by
      by_contra hc
      have hc' : neg = true := by simpa using hc
      subst hc'
      have hpos : (0 : ℚ) < (m : ℚ) * 2 ^ e := by
        have : (0 : ℚ) < m := by exact_mod_cast Nat.pos_of_ne_zero hm
        have := zpow_pos (show (0 : ℚ) < 2 by norm_num) e
        positivity
      simp only [F32.toRat, if_true] at h0
      linarith
    subst hneg
    have hb : F32.toRat ⟨false, m, e⟩ = (m : ℚ) * 2 ^ e := by
      simp [F32.toRat]
    have hmul : f32_mul ⟨false, 500, 0⟩ ⟨false, m, e⟩ = f32_round false (500 * m) e := by
      simp [f32_mul]
    have hx : ((500 * m : Nat) : ℚ) * 2 ^ e = 500 * F32.toRat ⟨false, m, e⟩ := by
      rw [hb]; push_cast; ring
    have hxle : ((500 * m : Nat) : ℚ) * 2 ^ e ≤ ((500 : Nat) : ℚ) := by
      rw [hx]; push_cast; linarith
    obtain ⟨hn, hle, hfl, hhalf⟩ := f32_round_bounds (500 * m) 500 e hexp (by norm_num) hxle
    rw [hmul, f32_to_int_floor _ hn]
    rw [hx] at hfl hhalf
    refine ⟨rfl, ?_, ?_, hfl, ?_⟩
    · exact Int.floor_nonneg.mpr (F32.toRat_nonneg_of_pos _ hn)
    · have h2 : ((⌊(f32_round false (500 * m) e).toRat⌋ : Int) : ℚ) ≤ ((500 : Int) : ℚ) :=
        le_trans (Int.floor_le _) (by exact_mod_cast hle)
      exact_mod_cast h2
    · rw [round_eq]
      exact Int.le_floor.mpr hhalf

/-- C7 (amended) at brightness 1/256: floor of the product 1.953125. -/
theorem glow_threshold_truncates_witness :
    (8388608 < 2 ^ 24) ∧ ((-149 : Int) ≤ -31) ∧
    0 ≤ F32.toRat ⟨false, 8388608, -31⟩ ∧ F32.toRat ⟨false, 8388608, -31⟩ ≤ 1 ∧
    glow_threshold ⟨false, 8388608, -31⟩ =
      ⌊(f32_mul (f32_of_long PWM_PERIOD) ⟨false, 8388608, -31⟩).toRat⌋ ∧
    0 ≤ glow_threshold ⟨false, 8388608, -31⟩ ∧ glow_threshold ⟨false, 8388608, -31⟩ ≤ 500 ∧
    ⌊500 * F32.toRat ⟨false, 8388608, -31⟩⌋ ≤ glow_threshold ⟨false, 8388608, -31⟩ ∧
    glow_threshold ⟨false, 8388608, -31⟩ ≤ round (500 * F32.toRat ⟨false, 8388608, -31⟩) :=
  ⟨by decide, by decide, by norm_num [F32.toRat], by norm_num [F32.toRat],
    glow_threshold_truncates ⟨false, 8388608, -31⟩ (by decide) (by decide)
      (by norm_num [F32.toRat]) (by norm_num [F32.toRat])⟩

/-! ## The pattern player `SOS` -/

theorem shift_and_one (p j : Nat) : decide ((p >>> j) &&& 1 ≠ 0) = p.testBit j := by
  rw [Nat.testBit_to_div_mod, Nat.and_one_is_mod, Nat.shiftRight_eq_div_pow]
  have h := Nat.mod_two_eq_zero_or_one (p / 2 ^ j)
  rcases h with h | h <;> simp [h]

theorem leds_write_eq (p r : Nat) :
    leds_write p r =
      led_state 3 ((p >>> 3) &&& 1) (led_state 2 ((p >>> 2) &&& 1)
        (led_state 1 ((p >>> 1) &&& 1) (led_state 0 ((p >>> 0) &&& 1) r))) := rfl

theorem leds_off_eq (r : Nat) :
    leds_off r = led_state 3 0 (led_state 2 0 (led_state 1 0 (led_state 0 0 r))) := rfl

theorem leds_write_lt (p r : Nat) : leds_write p r < 256 := by
  rw [leds_write_eq]; exact led_state_lt _ _ _

theorem leds_off_lt (r : Nat) : leds_off r < 256 := by
  rw [leds_off_eq]; exact led_state_lt _ _ _

/-- After the four `led_state` calls of a pattern write, LED `j` shows bit `j`
of the pattern. -/
theorem led_bits_leds_write (p r : Nat) (hr : r < 256) :
    led_bits (leds_write p r) = [p.testBit 0, p.testBit 1, p.testBit 2, p.testBit 3] := by
  have h0 := led_state_lt 0 ((p >>> 0) &&& 1) r
  have h1 := led_state_lt 1 ((p >>> 1) &&& 1) (led_state 0 ((p >>> 0) &&& 1) r)
  have h2 := led_state_lt 2 ((p >>> 2) &&& 1)
    (led_state 1 ((p >>> 1) &&& 1) (led_state 0 ((p >>> 0) &&& 1) r))
  unfold led_bits
  rw [leds_write_eq]
  congr 1
  · rw [led_state_testBit_other 3 _ _ 7 (by decide) h2 (by decide),
      led_state_testBit_other 2 _ _ 7 (by decide) h1 (by decide),
      led_state_testBit_other 1 _ _ 7 (by decide) h0 (by decide)]
    exact (led_state_testBit_self 0 _ r (by decide) hr).trans (shift_and_one p 0)
  congr 1
  · rw [led_state_testBit_other 3 _ _ 5 (by decide) h2 (by decide),
      led_state_testBit_other 2 _ _ 5 (by decide) h1 (by decide)]
    exact (led_state_testBit_self 1 _ _ (by decide) h0).trans (shift_and_one p 1)
  congr 1
  · rw [led_state_testBit_other 3 _ _ 3 (by decide) h2 (by decide)]
    exact (led_state_testBit_self 2 _ _ (by decide) h1).trans (shift_and_one p 2)
  congr 1
  · exact (led_state_testBit_self 3 _ _ (by decide) h2).trans (shift_and_one p 3)

/-- After the four `led_state(j, 0)` calls all four LEDs are off. -/
theorem led_bits_leds_off (r : Nat) (hr : r < 256) :
    led_bits (leds_off r) = [false, false, false, false] := by
  have h0 := led_state_lt 0 0 r
  have h1 := led_state_lt 1 0 (led_state 0 0 r)
  have h2 := led_state_lt 2 0 (led_state 1 0 (led_state 0 0 r))
  unfold led_bits
  rw [leds_off_eq]
  congr 1
  · rw [led_state_testBit_other 3 _ _ 7 (by decide) h2 (by decide),
      led_state_testBit_other 2 _ _ 7 (by decide) h1 (by decide),
      led_state_testBit_other 1 _ _ 7 (by decide) h0 (by decide)]
    exact led_state_testBit_self 0 0 r (by decide) hr
  congr 1
  · rw [led_state_testBit_other 3 _ _ 5 (by decide) h2 (by decide),
      led_state_testBit_other 2 _ _ 5 (by decide) h1 (by decide)]
    exact led_state_testBit_self 1 0 _ (by decide) h0
  congr 1
  · rw [led_state_testBit_other 3 _ _ 3 (by decide) h2 (by decide)]
    exact led_state_testBit_self 2 0 _ (by decide) h1
  congr 1
  · exact led_state_testBit_self 3 0 _ (by decide) h2

theorem range_19 : List.range 19 =
    [0, 1, 2, 3, 4, 5, 6, 7, 8, 9, 10, 11, 12, 13, 14, 15, 16, 17, 18] := by decide

theorem range_6 : List.range 6 = [0, 1, 2, 3, 4, 5] := by decide

/-- C8: from any 8-bit initial register value, `SOS` runs through its table,
and the first 6 holds it emits (equally, the holds of the loop run for 6
entries) are: only LED0 on for 100 ms, all four off for 250 ms, only LED0 on
for 100 ms, all off for 250 ms, only LED0 on for 100 ms, all off for 500 ms,
the LED states being bits 7, 5, 3, 1 of the register during the hold. -/
theorem SOS_first_six (r : Nat) (hr : r < 256) :
    (SOS r).map (fun x => (x.1.take 6).map (fun h => (led_bits h.PORTL, h.ms))) =
      some [([true, false, false, false], 100), ([false, false, false, false], 250),
            ([true, false, false, false], 100), ([false, false, false, false], 250),
            ([true, false, false, false], 100), ([false, false, false, false], 500)] ∧
    (SOS_play 6 r).map (fun x => x.1.map (fun h => (led_bits h.PORTL, h.ms))) =
      some [([true, false, false, false], 100), ([false, false, false, false], 250),
            ([true, false, false, false], 100), ([false, false, false, false], 250),
            ([true, false, false, false], 100), ([false, false, false, false], 500)] := by
  have hw : ∀ x, x < 256 → led_bits (leds_write 1 x) = [true, false, false, false] := by
    intro x hx
    rw [led_bits_leds_write 1 x hx]
    decide
  have ho : ∀ x, led_bits (leds_off (leds_write 1 x)) = [false, false, false, false] :=
    fun x => led_bits_leds_off _ (leds_write_lt 1 x)
  have hl : ∀ x, leds_off x < 256 := leds_off_lt
  constructor
  · simp [SOS, SOS_play, range_19, SOS_loop, SOS_light, SOS_duration, SOS_body, hw, ho, hl, hr]
  · simp [SOS_play, range_6, SOS_loop, SOS_light, SOS_duration, SOS_body, hw, ho, hl, hr]

/-- C8 from the register value `0xFF` (all LEDs on before the call). -/
theorem SOS_first_six_witness :
    255 < 256 ∧
    (SOS 255).map (fun x => (x.1.take 6).map (fun h => (led_bits h.PORTL, h.ms))) =
      some [([true, false, false, false], 100), ([false, false, false, false], 250),
            ([true, false, false, false], 100), ([false, false, false, false], 250),
            ([true, false, false, false], 100), ([false, false, false, false], 500)] :=
  ⟨by decide, (SOS_first_six 255 (by decide)).1⟩

/-! ## Tick detection in `pulse_glow` -/

/-- While the slow counter fits in `int`, an iteration that reads the value
cached by the previous one leaves the state unchanged. -/
theorem pulse_update_same_in_range (v : Int) (s : PulseState) (h1 : -32768 ≤ v)
    (h2 : v ≤ 32767) : pulse_update v v (pulse_update v v s) = pulse_update v v s := by
  have hconv : to_int16 v = v := by
    unfold to_int16
    omega
  by_cases h : v = s.last_slow_count
  · have hs : pulse_update v v s = s := by simp [pulse_update, h]
    rw [hs, hs]
  · have hs : (pulse_update v v s).last_slow_count = v := by
      simp [pulse_update, h, hconv]
    generalize pulse_update v v s = s1 at hs
    simp [pulse_update, hs]

/-- While the slow counter fits in `int`, outer iterations that read the
successive values `0, 5, ..., 5 * n` each perform one ramp step. -/
theorem pulse_run_in_range (n : Nat) (hn : 5 * n ≤ 32767) :
    pulse_run ((List.range (n + 1)).map (fun (k : Nat) => 5 * (k : Int))) pulse_init =
      ⟨(ramp_after (n + 1)).1, (ramp_after (n + 1)).2, 5 * (n : Int)⟩ := by
  induction n with
  | zero => decide
  | succ n ih =>
    have h := ih (by omega)
    have hconv : to_int16 (5 * ((n + 1 : Nat) : Int)) = 5 * ((n + 1 : Nat) : Int) := by
      unfold to_int16
      omega
    have hne : 5 * ((n + 1 : Nat) : Int) ≠ 5 * (n : Int) := by omega
    rw [List.range_succ, List.map_append, pulse_run, List.foldl_append]
    rw [pulse_run] at h
    rw [h]
    simp only [List.map_cons, List.map_nil, List.foldl_cons, List.foldl_nil]
    unfold pulse_update
    simp only [hne, ne_eq, not_false_eq_true, if_true, hconv]
    rw [ramp_after_succ (n + 1)]

/-- C9 (failing input): the outer iterations that read the slow-counter values
0, 5, ..., 32765 leave threshold 446, direction -1 and the cached value 32765.
The next value 32770 does not fit in the 16-bit `static int last_slow_count`:
the cache becomes -32766, and a second outer iteration that reads the same
value 32770 adjusts the threshold again (445 to 444). -/
theorem pulse_update_same_value_steps_twice :
    pulse_run ((List.range 6554).map (fun (k : Nat) => 5 * (k : Int))) pulse_init =
      ⟨446, -1, 32765⟩ ∧
    to_int16 32770 = -32766 ∧
    pulse_update 32770 32770 ⟨446, -1, 32765⟩ = ⟨445, -1, -32766⟩ ∧
    pulse_update 32770 32770 ⟨445, -1, -32766⟩ = ⟨444, -1, -32766⟩ := by
  refine ⟨?_, by decide, by decide, by decide⟩
  rw [pulse_run_in_range 6553 (by norm_num), ramp_after_eq]
  norm_num

/-! ## Full brightness in `glow` -/

theorem count_after_zero_lt (c : Int) : count_after c 0 < 500 := by
  rw [count_after_eq]
  unfold PWM_PERIOD
  split_ifs <;> omega

/-- With threshold 500, iterations whose comparison reads a value below 500
and that start with `is_on ≠ 0` issue no command and keep the state. -/
theorem glow_run_on_stays (LED : Nat) (inputs : List (Int × Nat)) (s : GlowState)
    (hs : s.is_on ≠ 0) (hin : ∀ y ∈ inputs, count_after y.1 y.2 < 500) :
    glow_run LED 500 inputs s = List.replicate inputs.length (none, s) := by
  induction inputs with
  | nil => rfl
  | cons x rest ih =>
    obtain ⟨c, ticks⟩ := x
    have hc : count_after c ticks < 500 := hin (c, ticks) (List.mem_cons_self _ _)
    have hb : glow_body LED 500 c ticks s = (none, s) := by
      unfold glow_body glow_branch
      rw [if_pos hc, if_neg hs]
    simp only [glow_run, hb, List.length_cons, List.replicate_succ]
    rw [ih (fun y hy => hin y (List.mem_cons_of_mem _ hy))]

/-- C10 (counterexample): `glow(2, 1.0)` from register 0.  The first iteration
reads 0 and turns the LED on; in the second the wrap check reads 499, one fast
interrupt increments the counter, the comparison reads 500, and the LED is
commanded off (bit 3 of the register is cleared). -/
theorem glow_full_brightness_glitch :
    glow_threshold brightness_1 = 500 ∧
    count_after 499 1 = 500 ∧
    glow 2 brightness_1 [(0, 0), (499, 1)] 0 = [(some 1, ⟨1, 8⟩), (some 0, ⟨0, 0⟩)] := by
  decide

/-- C10 (amended): `glow` with brightness 1 (threshold 500) turns the LED on
in its first iteration and afterwards issues no command and keeps `is_on = 1`
and the register, in particular it never commands the LED off, for every
sequence of fast-counter values and of fast interrupts in which every
threshold comparison reads a value below 500 (interrupts between the wrap
check and the comparison that leave the counter below 500 are harmless);
an iteration with the LED on whose comparison reads 500 or more commands it
off. -/
theorem glow_full_brightness_stays_on (LED P : Nat) (x : Int × Nat)
    (inputs : List (Int × Nat)) (hin : ∀ y ∈ x :: inputs, count_after y.1 y.2 < 500) :
    glow LED brightness_1 (x :: inputs) P =
      (some 1, ⟨1, led_state LED 1 P⟩) ::
        List.replicate inputs.length (none, ⟨1, led_state LED 1 P⟩) ∧
    (∀ y ∈ glow LED brightness_1 (x :: inputs) P, y.1 ≠ some 0) ∧
    (∀ (c1 : Int) (ticks : Nat) (s : GlowState), s.is_on ≠ 0 →
      500 ≤ count_after c1 ticks →
      (glow_body LED (glow_threshold brightness_1) c1 ticks s).1 = some 0) := by
  have ht : glow_threshold brightness_1 = 500 := by decide
  obtain ⟨c, ticks⟩ := x
  have hc : count_after c ticks < 500 := hin (c, ticks) (List.mem_cons_self _ _)
  have hb : glow_body LED 500 c ticks ⟨0, P⟩ = (some 1, ⟨1, led_state LED 1 P⟩) := by
    unfold glow_body glow_branch
    rw [if_pos hc]
    simp
  have hrun : glow LED brightness_1 ((c, ticks) :: inputs) P =
      (some 1, ⟨1, led_state LED 1 P⟩) ::
        List.replicate inputs.length (none, ⟨1, led_state LED 1 P⟩) := by
    unfold glow
    rw [ht]
    simp only [glow_run, hb]
    rw [glow_run_on_stays LED inputs _ (by simp)
      (fun y hy => hin y (List.mem_cons_of_mem _ hy))]
  refine ⟨hrun, ?_, ?_⟩
  · intro y hy
    rw [hrun] at hy
    rcases List.mem_cons.mp hy with h | h
    · rw [h]; simp
    · rw [(List.mem_replicate.mp h).2]; simp
  · intro c1 k s hs hge
    rw [ht]
    unfold glow_body glow_branch
    rw [if_neg (by omega), if_pos hs]

/-- C10 (amended) at LED 2 from register 0, with interrupts inside every
iteration that leave the counter below 500. -/
theorem glow_full_brightness_stays_on_witness :
    (∀ y ∈ [((0 : Int), 3), ((10 : Int), 2), ((498 : Int), 1), ((700 : Int), 5)],
      count_after y.1 y.2 < 500) ∧
    glow 2 brightness_1 [(0, 3), (10, 2), (498, 1), (700, 5)] 0 =
      (some 1, ⟨1, led_state 2 1 0⟩) ::
        List.replicate [((10 : Int), 2), ((498 : Int), 1), ((700 : Int), 5)].length
          (none, ⟨1, led_state 2 1 0⟩) :=
  ⟨by decide,
    (glow_full_brightness_stays_on 2 0 (0, 3) [(10, 2), (498, 1), (700, 5)] (by decide)).1⟩

/-! ## Zero brightness in `glow` -/

theorem count_after_nonneg (c : Int) (ticks : Nat) (hc : 0 ≤ c) : 0 ≤ count_after c ticks := by
  rw [count_after_eq]
  unfold PWM_PERIOD
  split_ifs <;> omega

/-- With threshold 0 and non-negative counter values, iterations that start
with `is_on = 0` issue no command and keep the state. -/
theorem glow_run_off_stays (LED : Nat) (inputs : List (Int × Nat)) (P : Nat)
    (hin : ∀ x ∈ inputs, 0 ≤ x.1) :
    glow_run LED 0 inputs ⟨0, P⟩ = List.replicate inputs.length (none, ⟨0, P⟩) := by
  induction inputs with
  | nil => rfl
  | cons x rest ih =>
    obtain ⟨c, ticks⟩ := x
    have hc : 0 ≤ c := hin (c, ticks) (List.mem_cons_self _ _)
    have hb : glow_body LED 0 c ticks ⟨0, P⟩ = (none, ⟨0, P⟩) := by
      unfold glow_body glow_branch
      rw [if_neg (by have := count_after_nonneg c ticks hc; omega)]
      simp
    simp only [glow_run, hb, List.length_cons, List.replicate_succ]
    rw [ih (fun y hy => hin y (List.mem_cons_of_mem _ hy))]

/-- C11 (counterexample): `glow(2, 0)` entered with register `0b00001000`
(LED 2 on, bit 3 set).  The loop reads the counter value 0, issues no
`led_state` call, and the LED bit is still set after the iteration. -/
theorem glow_zero_brightness_leaves_led_on :
    glow_threshold brightness_0 = 0 ∧
    glow 2 brightness_0 [(0, 0)] 8 = [(none, ⟨0, 8⟩)] ∧
    Nat.testBit 8 (7 - 2 * 2) = true := by
  decide

/-- C11 (amended): `glow` with brightness 0 (threshold 0) never calls
`led_state` and leaves the register as it was on entry, for every LED index in
`{0,1,2,3}`, every 8-bit register value (LED on or off) and every sequence of
non-negative fast-counter values (with any number of fast interrupts inside an
iteration); so when the LED bit is clear on entry it is clear after every
iteration. -/
theorem glow_zero_brightness_stays_off (LED P : Nat) (inputs : List (Int × Nat))
    (_hL : LED < 4) (_hP : P < 256) (hin : ∀ x ∈ inputs, 0 ≤ x.1) :
    glow LED brightness_0 inputs P = List.replicate inputs.length (none, ⟨0, P⟩) ∧
    (∀ x ∈ glow LED brightness_0 inputs P, x.1 = none ∧ x.2.PORTL = P) ∧
    (P.testBit (7 - 2 * LED) = false →
      ∀ x ∈ glow LED brightness_0 inputs P, x.2.PORTL.testBit (7 - 2 * LED) = false) := by
  have ht : glow_threshold brightness_0 = 0 := by decide
  have hrun : glow LED brightness_0 inputs P =
      List.replicate inputs.length (none, ⟨0, P⟩) := by
    unfold glow
    rw [ht]
    exact glow_run_off_stays LED inputs P hin
  refine ⟨hrun, ?_, ?_⟩
  · intro x hx
    rw [hrun] at hx
    rw [(List.mem_replicate.mp hx).2]
    exact ⟨rfl, rfl⟩
  · intro hclr x hx
    rw [hrun] at hx
    rw [(List.mem_replicate.mp hx).2]
    exact hclr

/-- C11 (amended) at LED 2, counter values 0, 3 (then one interrupt) and 700
(then two): from register `0b00001000` (LED on) the register stays as it is,
and from `0b10100010` (LED off) the LED bit stays clear. -/
theorem glow_zero_brightness_stays_off_witness :
    (2 < 4 ∧ 8 < 256 ∧
      (∀ x ∈ [((0 : Int), 0), ((3 : Int), 1), ((700 : Int), 2)], 0 ≤ x.1) ∧
      ∀ x ∈ glow 2 brightness_0 [(0, 0), (3, 1), (700, 2)] 8, x.1 = none ∧ x.2.PORTL = 8) ∧
    (162 < 256 ∧ Nat.testBit 162 (7 - 2 * 2) = false ∧
      ∀ x ∈ glow 2 brightness_0 [(0, 0), (3, 1), (700, 2)] 162,
        x.2.PORTL.testBit (7 - 2 * 2) = false) :=
  ⟨⟨by decide, by decide, by decide,
      (glow_zero_brightness_stays_off 2 8 [(0, 0), (3, 1), (700, 2)] (by decide) (by decide)
        (by decide)).2.1⟩,
    ⟨by decide, by decide,
      (glow_zero_brightness_stays_off 2 162 [(0, 0), (3, 1), (700, 2)] (by decide)
        (by decide) (by decide)).2.2 (by decide)⟩⟩

/-! ## Pin mapping of the LED driver -/

theorem led_state_uses_mask (LED state PORTL : Nat) :
    led_state LED state PORTL =
      if state ≠ 0 then (PORTL ||| led_mask LED) % 256
      else (PORTL &&& (65535 - led_mask LED)) % 256 := rfl

/-- C19: the masks computed by `led_state` for LED 0, 1, 2, 3 are the distinct
single-bit values `0x80`, `0x20`, `0x08`, `0x02` (bit `7 - 2*i`), distinct
indices have distinct masks, the OR of the four masks is the value
`0b10101010` that `main` writes to `DDRL` (so every LED pin is an output), and
`led_state` on one index never changes the bit of another index. -/
theorem led_masks_distinct_and_output :
    (∀ LED state PORTL, led_state LED state PORTL =
      if state ≠ 0 then (PORTL ||| led_mask LED) % 256
      else (PORTL &&& (65535 - led_mask LED)) % 256) ∧
    led_mask 0 = 0x80 ∧ led_mask 1 = 0x20 ∧ led_mask 2 = 0x08 ∧ led_mask 3 = 0x02 ∧
    (∀ i, i < 4 → led_mask i = 2 ^ (7 - 2 * i)) ∧
    (∀ i j, i < 4 → j < 4 → i ≠ j → led_mask i ≠ led_mask j) ∧
    (led_mask 0 ||| led_mask 1 ||| led_mask 2 ||| led_mask 3) = DDRL_main ∧
    DDRL_main = 0b10101010 ∧
    (∀ i, i < 4 → led_mask i &&& DDRL_main = led_mask i) ∧
    (∀ i j s r, i < 4 → j < 4 → i ≠ j → r < 256 →
      (led_state i s r).testBit (7 - 2 * j) = r.testBit (7 - 2 * j)) := by
  refine ⟨led_state_uses_mask, by decide, by decide, by decide, by decide, ?_, ?_,
    by decide, by decide, ?_, ?_⟩
  · intro i hi
    interval_cases i <;> decide
  · intro i j hi hj hij
    interval_cases i <;> interval_cases j <;> first | (exact absurd rfl hij) | decide
  · intro i hi
    interval_cases i <;> decide
  · intro i j s r hi hj hij hr
    exact led_state_testBit_other i s r (7 - 2 * j) hi hr (by omega)

/-- C19 at LED 0 against LED 3 on register `0xFF`: clearing LED 0 keeps
bit 1. -/
theorem led_masks_distinct_and_output_witness :
    0 < 4 ∧ 3 < 4 ∧ 0 ≠ 3 ∧ 255 < 256 ∧
    (led_state 0 0 255).testBit (7 - 2 * 3) = Nat.testBit 255 (7 - 2 * 3) :=
  ⟨by decide, by decide, by decide, by decide,
    led_masks_distinct_and_output.2.2.2.2.2.2.2.2.2.2 0 3 0 255 (by decide) (by decide)
      (by decide) (by decide)⟩

/-! ## The slow counter -/

theorem slow_count_after_succ (n : Nat) :
    slow_count_after (n + 1) = TIMER3_COMPA (slow_count_after n) := by
  unfold slow_count_after
  rw [Function.iterate_succ_apply']

/-- The slow counter after `n` interrupts is `5 * n` reduced to 32 bits. -/
theorem slow_count_after_eq (n : Nat) : slow_count_after n = to_int32 (5 * (n : Int)) := by
  induction n with
  | zero => decide
  | succ n ih =>
    rw [slow_count_after_succ, ih]
    unfold TIMER3_COMPA to_int32
    push_cast
    omega

/-- C14 (counterexample): `slow_count` is a 32-bit `long int` that is never
reset.  After 429496730 slow-timer interrupts it is -2147483646, which is
neither `5 * n` nor a multiple of 5; after 858993459 interrupts it is -1, the
initial cached value of `pulse_glow`, and a first outer iteration that reads
it performs no ramp step. -/
theorem slow_count_wraps :
    slow_count_after 429496730 = -2147483646 ∧
    slow_count_after 429496730 ≠ 5 * 429496730 ∧
    slow_count_after 429496730 % 5 ≠ 0 ∧
    slow_count_after 858993459 = pulse_init.last_slow_count ∧
    pulse_update (slow_count_after 858993459) (slow_count_after 858993459) pulse_init =
      pulse_init := by
  have h1 : slow_count_after 429496730 = -2147483646 := by
    rw [slow_count_after_eq]; decide
  have h2 : slow_count_after 858993459 = -1 := by
    rw [slow_count_after_eq]; decide
  rw [h1, h2]
  decide

/-- C14 (amended): while `5 * n` fits in the 32-bit `long int`
(`5 * n ≤ 2147483647`), after `n` slow-timer interrupts `slow_count` equals
`5 * n`, a multiple of 5; so it differs from the initial cached value -1 of
`pulse_glow`, and a first outer iteration of `pulse_glow` that reads it
performs a ramp step (threshold 0 to 1, direction +1). -/
theorem slow_count_multiple_of_five (n : Nat) (hn : 5 * n ≤ 2147483647) :
    slow_count_after n = 5 * (n : Int) ∧
    slow_count_after n % 5 = 0 ∧
    slow_count_after n ≠ pulse_init.last_slow_count ∧
    ∀ sc2, pulse_update (slow_count_after n) sc2 pulse_init = ⟨1, 1, to_int16 sc2⟩ := by
  have h : slow_count_after n = 5 * (n : Int) := by
    rw [slow_count_after_eq]
    unfold to_int32
    omega
  have hne : slow_count_after n ≠ pulse_init.last_slow_count := by
    rw [h]
    unfold pulse_init
    simp only
    omega
  refine ⟨h, by rw [h]; omega, hne, ?_⟩
  intro sc2
  unfold pulse_update
  rw [if_pos hne]
  rfl

/-- C14 (amended) after 6554 interrupts: the counter is 32770. -/
theorem slow_count_multiple_of_five_witness :
    5 * 6554 ≤ 2147483647 ∧ slow_count_after 6554 = 5 * ((6554 : Nat) : Int) :=
  ⟨by decide, (slow_count_multiple_of_five 6554 (by decide)).1⟩

/-! ## Array bounds of the pattern players -/

theorem SOS_loop_cons_eq (light : List Nat) (duration : List Int) (i : Nat) (rest : List Nat)
    (P pattern : Nat) (d : Int) (h1 : light[i]? = some pattern) (h2 : duration[i]? = some d) :
    SOS_loop light duration (i :: rest) P =
      match SOS_loop light duration rest (SOS_body pattern d P).2 with
      | some (holds, final) => some ((SOS_body pattern d P).1 :: holds, final)
      | none => none := by
  simp only [SOS_loop, h1, h2]

theorem light_show_loop_cons_eq (light : List Nat) (duration : List Int) (i : Nat)
    (rest : List Nat) (P pattern : Nat) (d : Int) (h1 : light[i]? = some pattern)
    (h2 : duration[i]? = some d) :
    light_show_loop light duration (i :: rest) P =
      match light_show_loop light duration rest (light_show_body pattern d P).2 with
      | some (holds, final) => some ((light_show_body pattern d P).1 :: holds, final)
      | none => none := by
  simp only [light_show_loop, h1, h2]

/-- The loop of `SOS` completes, with one hold per index, when every index is
inside both arrays. -/
theorem SOS_loop_some (light : List Nat) (duration : List Int) (idxs : List Nat) (P : Nat)
    (hb : ∀ i ∈ idxs, i < light.length ∧ i < duration.length) :
    ∃ holds final, SOS_loop light duration idxs P = some (holds, final) ∧
      holds.length = idxs.length := by
  induction idxs generalizing P with
  | nil => exact ⟨[], P, rfl, rfl⟩
  | cons i rest ih =>
    obtain ⟨hl, hd⟩ := hb i (List.mem_cons_self _ _)
    have h1 : light[i]? = some light[i] := List.getElem?_eq_getElem hl
    have h2 : duration[i]? = some duration[i] := List.getElem?_eq_getElem hd
    obtain ⟨holds, final, hrest, hlen⟩ :=
      ih (SOS_body light[i] duration[i] P).2 (fun j hj => hb j (List.mem_cons_of_mem _ hj))
    refine ⟨(SOS_body light[i] duration[i] P).1 :: holds, final, ?_, by simp [hlen]⟩
    rw [SOS_loop_cons_eq light duration i rest P _ _ h1 h2, hrest]

/-- The loop of `light_show` completes, with one hold per index, when every
index is inside both arrays. -/
theorem light_show_loop_some (light : List Nat) (duration : List Int) (idxs : List Nat)
    (P : Nat) (hb : ∀ i ∈ idxs, i < light.length ∧ i < duration.length) :
    ∃ holds final, light_show_loop light duration idxs P = some (holds, final) ∧
      holds.length = idxs.length := by
  induction idxs generalizing P with
  | nil => exact ⟨[], P, rfl, rfl⟩
  | cons i rest ih =>
    obtain ⟨hl, hd⟩ := hb i (List.mem_cons_self _ _)
    have h1 : light[i]? = some light[i] := List.getElem?_eq_getElem hl
    have h2 : duration[i]? = some duration[i] := List.getElem?_eq_getElem hd
    obtain ⟨holds, final, hrest, hlen⟩ :=
      ih (light_show_body light[i] duration[i] P).2
        (fun j hj => hb j (List.mem_cons_of_mem _ hj))
    refine ⟨(light_show_body light[i] duration[i] P).1 :: holds, final, ?_, by simp [hlen]⟩
    rw [light_show_loop_cons_eq light duration i rest P _ _ h1 h2, hrest]

/-- An index past the end of the `light` array makes the loop fail. -/
theorem SOS_loop_out_of_bounds (light : List Nat) (duration : List Int) (idxs : List Nat)
    (i P : Nat) (h : light.length ≤ i) : SOS_loop light duration (idxs ++ [i]) P = none := by
  induction idxs generalizing P with
  | nil => simp [SOS_loop, List.getElem?_eq_none h]
  | cons j rest ih =>
    rw [List.cons_append]
    cases h1 : light[j]? with
    | none => simp [SOS_loop, h1]
    | some p =>
      cases h2 : duration[j]? with
      | none => simp [SOS_loop, h1, h2]
      | some d => rw [SOS_loop_cons_eq light duration j _ P p d h1 h2, ih]

theorem SOS_bounds : ∀ i ∈ List.range 19, i < SOS_light.length ∧ i < SOS_duration.length := by
  intro i hi
  have h := List.mem_range.mp hi
  exact ⟨h, h⟩

theorem light_show_bounds :
    ∀ i ∈ List.range 43, i < light_show_light.length ∧ i < light_show_duration.length := by
  intro i hi
  have h := List.mem_range.mp hi
  exact ⟨h, h⟩

/-- C16: the two arrays of `SOS` have exactly 19 elements and its loop visits
the indices 0..18, all inside both arrays, so `SOS` completes with 19 holds
from every register value; the two arrays of `light_show` have exactly 43
elements and its loop visits the indices 0..42, so `light_show` completes with
43 holds; one index more would leave the arrays; and every LED index passed to
`led_state` by the inner loops of either player is in `{0,1,2,3}`. -/
theorem pattern_tables_in_bounds :
    SOS_light.length = 19 ∧ SOS_duration.length = 19 ∧
    (∀ i ∈ List.range 19, i ≤ 18 ∧ i < SOS_light.length ∧ i < SOS_duration.length) ∧
    (∀ r, ∃ holds final, SOS r = some (holds, final) ∧ holds.length = 19) ∧
    (∀ r, SOS_play 20 r = none) ∧
    light_show_light.length = 43 ∧ light_show_duration.length = 43 ∧
    (∀ i ∈ List.range 43,
      i ≤ 42 ∧ i < light_show_light.length ∧ i < light_show_duration.length) ∧
    (∀ r, ∃ holds final, light_show r = some (holds, final) ∧ holds.length = 43) ∧
    (∀ pattern P,
      leds_write pattern P =
        (leds_write_args pattern).foldl (fun Q a => led_state a.1 a.2 Q) P) ∧
    (∀ P, leds_off P = leds_off_args.foldl (fun Q a => led_state a.1 a.2 Q) P) ∧
    (∀ pattern, ∀ a ∈ leds_write_args pattern, a.1 < 4) ∧
    (∀ a ∈ leds_off_args, a.1 < 4) := by
  refine ⟨rfl, rfl, ?_, ?_, ?_, rfl, rfl, ?_, ?_, ?_, ?_, ?_, ?_⟩
  · intro i hi
    have h := List.mem_range.mp hi
    exact ⟨by omega, h, h⟩
  · intro r
    obtain ⟨holds, final, h, hlen⟩ := SOS_loop_some SOS_light SOS_duration (List.range 19) r
      SOS_bounds
    exact ⟨holds, final, h, by simpa using hlen⟩
  · intro r
    have hr : List.range 20 = List.range 19 ++ [19] := List.range_succ 19
    unfold SOS_play
    rw [hr]
    exact SOS_loop_out_of_bounds SOS_light SOS_duration (List.range 19) 19 r (by decide)
  · intro i hi
    have h := List.mem_range.mp hi
    exact ⟨by omega, h, h⟩
  · intro r
    obtain ⟨holds, final, h, hlen⟩ :=
      light_show_loop_some light_show_light light_show_duration (List.range 43) r
        light_show_bounds
    exact ⟨holds, final, h, by simpa using hlen⟩
  · intro pattern P
    rfl
  · intro P
    rfl
  · intro pattern a ha
    unfold leds_write_args at ha
    obtain ⟨j, hj, rfl⟩ := List.mem_map.mp ha
    exact List.mem_range.mp hj
  · intro a ha
    unfold leds_off_args at ha
    obtain ⟨j, hj, rfl⟩ := List.mem_map.mp ha
    exact List.mem_range.mp hj

/-- C16 at the last index of `SOS`. -/
theorem pattern_tables_in_bounds_witness :
    18 ∈ List.range 19 ∧ (18 ≤ 18 ∧ 18 < SOS_light.length ∧ 18 < SOS_duration.length) :=
  ⟨by decide, pattern_tables_in_bounds.2.2.1 18 (by decide)⟩

/-! ## Effect of the inner loops of the pattern players on the register -/

/-- The driver never changes the bits 0, 2, 4, 6 of the register. -/
theorem led_state_and_85 (i s P : Nat) (hi : i < 4) (hP : P < 256) :
    led_state i s P &&& 85 = P &&& 85 := by
  apply Nat.eq_of_testBit_eq
  intro j
  rw [Nat.testBit_and, Nat.testBit_and]
  by_cases hj : j = 7 - 2 * i
  · subst hj
    have h85 : Nat.testBit 85 (7 - 2 * i) = false := by
      interval_cases i <;> decide
    simp [h85]
  · rw [led_state_testBit_other i s P j hi hP hj]

/-- A call that commands the state the LED already has leaves the register
unchanged. -/
theorem led_state_idem (i s P : Nat) (hi : i < 4) (hP : P < 256)
    (h : P.testBit (7 - 2 * i) = decide (s ≠ 0)) : led_state i s P = P := by
  apply Nat.eq_of_testBit_eq
  intro j
  by_cases hj : j = 7 - 2 * i
  · subst hj
    rw [led_state_testBit_self i s P hi hP, h]
  · exact led_state_testBit_other i s P j hi hP hj

theorem leds_write_and_85 (p P : Nat) (hP : P < 256) : leds_write p P &&& 85 = P &&& 85 := by
  rw [leds_write_eq,
    led_state_and_85 3 _ _ (by decide) (led_state_lt _ _ _),
    led_state_and_85 2 _ _ (by decide) (led_state_lt _ _ _),
    led_state_and_85 1 _ _ (by decide) (led_state_lt _ _ _),
    led_state_and_85 0 _ _ (by decide) hP]

theorem leds_off_and_85 (P : Nat) (hP : P < 256) : leds_off P &&& 85 = P &&& 85 := by
  rw [leds_off_eq,
    led_state_and_85 3 _ _ (by decide) (led_state_lt _ _ _),
    led_state_and_85 2 _ _ (by decide) (led_state_lt _ _ _),
    led_state_and_85 1 _ _ (by decide) (led_state_lt _ _ _),
    led_state_and_85 0 _ _ (by decide) hP]

theorem led_bits_clear_iff (P : Nat) :
    led_bits P = [false, false, false, false] ↔
      P.testBit 7 = false ∧ P.testBit 5 = false ∧ P.testBit 3 = false ∧ P.testBit 1 = false := by
  unfold led_bits
  simp

/-- Turning all LEDs off when they are off leaves the register unchanged. -/
theorem leds_off_of_clear (P : Nat) (hP : P < 256)
    (hclr : led_bits P = [false, false, false, false]) : leds_off P = P := by
  obtain ⟨h7, h5, h3, h1⟩ := (led_bits_clear_iff P).mp hclr
  rw [leds_off_eq,
    led_state_idem 0 0 P (by decide) hP (by simpa using h7),
    led_state_idem 1 0 P (by decide) hP (by simpa using h5),
    led_state_idem 2 0 P (by decide) hP (by simpa using h3),
    led_state_idem 3 0 P (by decide) hP (by simpa using h1)]

theorem leds_write_zero (P : Nat) : leds_write 0 P = leds_off P := rfl

theorem pattern_bits_zero : pattern_bits 0 = [false, false, false, false] := by
  simp [pattern_bits]

theorem testBit_85 (j : Nat) (hj : j < 8) : Nat.testBit 85 j = decide (j % 2 = 0) := by
  interval_cases j <;> decide

/-- A register with the LED bits clear is its own bits 0, 2, 4, 6. -/
theorem eq_and_85_of_clear (x : Nat) (hx : x < 256)
    (hclr : led_bits x = [false, false, false, false]) : x = x &&& 85 := by
  obtain ⟨h7, h5, h3, h1⟩ := (led_bits_clear_iff x).mp hclr
  apply Nat.eq_of_testBit_eq
  intro j
  rw [Nat.testBit_and]
  by_cases hj8 : 8 ≤ j
  · rw [testBit_of_lt_256 x j hx hj8]
    rfl
  · have hj : j < 8 := by omega
    rw [testBit_85 j hj]
    interval_cases j <;> simp [h7, h5, h3, h1]

/-! ## What the pattern players show -/

theorem led_bits_leds_write_pattern (p r : Nat) (hr : r < 256) :
    led_bits (leds_write p r) = pattern_bits p :=
  led_bits_leds_write p r hr

/-- One entry of `SOS`, when the mask is non-zero or the LEDs are off before:
the hold shows the mask for the duration, bits 0, 2, 4, 6 are kept, and the
LEDs are off afterwards. -/
theorem SOS_body_spec (p : Nat) (d : Int) (P : Nat) (hP : P < 256)
    (h : p ≠ 0 ∨ led_bits P = [false, false, false, false]) :
    (SOS_body p d P).1.obs = (pattern_bits p, d) ∧
    (SOS_body p d P).1.PORTL &&& 85 = P &&& 85 ∧
    (SOS_body p d P).2 < 256 ∧
    led_bits (SOS_body p d P).2 = [false, false, false, false] ∧
    (SOS_body p d P).2 &&& 85 = P &&& 85 := by
  by_cases hp : p = 0
  · subst hp
    have hclr : led_bits P = [false, false, false, false] := by
      rcases h with h | h
      · exact absurd rfl h
      · exact h
    simp only [SOS_body, if_true, Hold.obs, hclr, pattern_bits_zero]
    exact ⟨trivial, trivial, hP, trivial, trivial⟩
  · have hw := leds_write_lt p P
    simp only [SOS_body, hp, if_false, Hold.obs, led_bits_leds_write_pattern p P hP]
    exact ⟨trivial, leds_write_and_85 p P hP, leds_off_lt _, led_bits_leds_off _ hw,
      by rw [leds_off_and_85 _ hw, leds_write_and_85 p P hP]⟩

/-- One entry of `light_show`: the hold shows the mask for the duration, bits
0, 2, 4, 6 are kept, and the LEDs are off afterwards. -/
theorem light_show_body_spec (p : Nat) (d : Int) (P : Nat) (hP : P < 256) :
    (light_show_body p d P).1.obs = (pattern_bits p, d) ∧
    (light_show_body p d P).1.PORTL &&& 85 = P &&& 85 ∧
    (light_show_body p d P).2 < 256 ∧
    led_bits (light_show_body p d P).2 = [false, false, false, false] ∧
    (light_show_body p d P).2 &&& 85 = P &&& 85 := by
  have hw := leds_write_lt p P
  by_cases hp : p = 0
  · subst hp
    simp only [light_show_body, ne_eq, not_true_eq_false, if_false, Hold.obs,
      led_bits_leds_write_pattern 0 P hP, pattern_bits_zero]
    exact ⟨trivial, leds_write_and_85 0 P hP, hw, trivial, leds_write_and_85 0 P hP⟩
  · simp only [light_show_body, ne_eq, hp, not_false_eq_true, if_true, Hold.obs,
      led_bits_leds_write_pattern p P hP]
    exact ⟨trivial, leds_write_and_85 p P hP, leds_off_lt _, led_bits_leds_off _ hw,
      by rw [leds_off_and_85 _ hw, leds_write_and_85 p P hP]⟩

theorem table_trace_cons (light : List Nat) (duration : List Int) (i : Nat) (rest : List Nat)
    (hl : i < light.length) (hd : i < duration.length) :
    table_trace light duration (i :: rest) =
      (pattern_bits light[i], duration[i]) :: table_trace light duration rest := by
  simp only [table_trace, List.map_cons, List.getD_eq_getElem _ _ hl,
    List.getD_eq_getElem _ _ hd]

/-- The loop of `SOS` started with the LEDs off: it completes, every hold
shows the mask and duration of its table entry, bits 0, 2, 4, 6 keep their
entry value throughout, and the LEDs are off at the end. -/
theorem SOS_loop_trace_clear (light : List Nat) (duration : List Int) (idxs : List Nat)
    (P : Nat) (hP : P < 256) (hclr : led_bits P = [false, false, false, false])
    (hb : ∀ i ∈ idxs, i < light.length ∧ i < duration.length) :
    ∃ holds final, SOS_loop light duration idxs P = some (holds, final) ∧
      holds.map Hold.obs = table_trace light duration idxs ∧
      final < 256 ∧ led_bits final = [false, false, false, false] ∧
      final &&& 85 = P &&& 85 ∧ ∀ h ∈ holds, h.PORTL &&& 85 = P &&& 85 := by
  induction idxs generalizing P with
  | nil => exact ⟨[], P, rfl, rfl, hP, hclr, rfl, fun h hh => by simp at hh⟩
  | cons i rest ih =>
    obtain ⟨hl, hd⟩ := hb i (List.mem_cons_self _ _)
    have h1 : light[i]? = some light[i] := List.getElem?_eq_getElem hl
    have h2 : duration[i]? = some duration[i] := List.getElem?_eq_getElem hd
    obtain ⟨s1, s2, s3, s4, s5⟩ := SOS_body_spec light[i] duration[i] P hP (Or.inr hclr)
    obtain ⟨holds, final, hrest, htr, hf, hfc, hf85, hh85⟩ :=
      ih (SOS_body light[i] duration[i] P).2 s3 s4
        (fun j hj => hb j (List.mem_cons_of_mem _ hj))
    refine ⟨(SOS_body light[i] duration[i] P).1 :: holds, final, ?_, ?_, hf, hfc,
      hf85.trans s5, ?_⟩
    · rw [SOS_loop_cons_eq light duration i rest P _ _ h1 h2, hrest]
    · rw [List.map_cons, s1, htr, table_trace_cons light duration i rest hl hd]
    · intro h hh
      rcases List.mem_cons.mp hh with e | e
      · rw [e]; exact s2
      · exact (hh85 h e).trans s5

/-- The loop of `SOS` started on an entry with a non-zero mask, from any
register value: same conclusions. -/
theorem SOS_loop_trace_first (light : List Nat) (duration : List Int) (i : Nat)
    (rest : List Nat) (P : Nat) (hP : P < 256)
    (hb : ∀ j ∈ i :: rest, j < light.length ∧ j < duration.length)
    (hne : light.getD i 0 ≠ 0) :
    ∃ holds final, SOS_loop light duration (i :: rest) P = some (holds, final) ∧
      holds.map Hold.obs = table_trace light duration (i :: rest) ∧
      final < 256 ∧ led_bits final = [false, false, false, false] ∧
      final &&& 85 = P &&& 85 ∧ ∀ h ∈ holds, h.PORTL &&& 85 = P &&& 85 := by
  obtain ⟨hl, hd⟩ := hb i (List.mem_cons_self _ _)
  have h1 : light[i]? = some light[i] := List.getElem?_eq_getElem hl
  have h2 : duration[i]? = some duration[i] := List.getElem?_eq_getElem hd
  have hne2 : light[i] ≠ 0 := by
    rw [List.getD_eq_getElem _ _ hl] at hne
    exact hne
  obtain ⟨s1, s2, s3, s4, s5⟩ := SOS_body_spec light[i] duration[i] P hP (Or.inl hne2)
  obtain ⟨holds, final, hrest, htr, hf, hfc, hf85, hh85⟩ :=
    SOS_loop_trace_clear light duration rest (SOS_body light[i] duration[i] P).2 s3 s4
      (fun j hj => hb j (List.mem_cons_of_mem _ hj))
  refine ⟨(SOS_body light[i] duration[i] P).1 :: holds, final, ?_, ?_, hf, hfc,
    hf85.trans s5, ?_⟩
  · rw [SOS_loop_cons_eq light duration i rest P _ _ h1 h2, hrest]
  · rw [List.map_cons, s1, htr, table_trace_cons light duration i rest hl hd]
  · intro h hh
    rcases List.mem_cons.mp hh with e | e
    · rw [e]; exact s2
    · exact (hh85 h e).trans s5

/-- The loop of `light_show` from any register value: it completes, every hold
shows the mask and duration of its table entry, bits 0, 2, 4, 6 keep their
entry value throughout, and after at least one entry the LEDs are off at the
end. -/
theorem light_show_loop_trace (light : List Nat) (duration : List Int) (idxs : List Nat)
    (P : Nat) (hP : P < 256)
    (hb : ∀ i ∈ idxs, i < light.length ∧ i < duration.length) :
    ∃ holds final, light_show_loop light duration idxs P = some (holds, final) ∧
      holds.map Hold.obs = table_trace light duration idxs ∧
      final < 256 ∧ (idxs ≠ [] → led_bits final = [false, false, false, false]) ∧
      final &&& 85 = P &&& 85 ∧ ∀ h ∈ holds, h.PORTL &&& 85 = P &&& 85 := by
  induction idxs generalizing P with
  | nil => exact ⟨[], P, rfl, rfl, hP, fun h => absurd rfl h, rfl, fun h hh => by simp at hh⟩
  | cons i rest ih =>
    obtain ⟨hl, hd⟩ := hb i (List.mem_cons_self _ _)
    have h1 : light[i]? = some light[i] := List.getElem?_eq_getElem hl
    have h2 : duration[i]? = some duration[i] := List.getElem?_eq_getElem hd
    obtain ⟨s1, s2, s3, s4, s5⟩ := light_show_body_spec light[i] duration[i] P hP
    obtain ⟨holds, final, hrest, htr, hf, hfc, hf85, hh85⟩ :=
      ih (light_show_body light[i] duration[i] P).2 s3
        (fun j hj => hb j (List.mem_cons_of_mem _ hj))
    refine ⟨(light_show_body light[i] duration[i] P).1 :: holds, final, ?_, ?_, hf, ?_,
      hf85.trans s5, ?_⟩
    · rw [light_show_loop_cons_eq light duration i rest P _ _ h1 h2, hrest]
    · rw [List.map_cons, s1, htr, table_trace_cons light duration i rest hl hd]
    · intro _
      by_cases hr : rest = []
      · subst hr
        simp only [light_show_loop, Option.some.injEq, Prod.mk.injEq] at hrest
        rw [← hrest.2]
        exact s4
      · exact hfc hr
    · intro h hh
      rcases List.mem_cons.mp hh with e | e
      · rw [e]; exact s2
      · exact (hh85 h e).trans s5


/-- Every run of `SOS` from an 8-bit register value: it completes, its holds
show the table, bits 0, 2, 4, 6 are kept and the LEDs are off at the end. -/
theorem SOS_spec (r : Nat) (hr : r < 256) :
    ∃ holds final, SOS r = some (holds, final) ∧
      holds.map Hold.obs = table_trace SOS_light SOS_duration (List.range 19) ∧
      final < 256 ∧ led_bits final = [false, false, false, false] ∧
      final &&& 85 = r &&& 85 ∧ ∀ h ∈ holds, h.PORTL &&& 85 = r &&& 85 := by
  have h := SOS_loop_trace_first SOS_light SOS_duration 0
    [1, 2, 3, 4, 5, 6, 7, 8, 9, 10, 11, 12, 13, 14, 15, 16, 17, 18] r hr
    (by rw [← range_19]; exact SOS_bounds) (by decide)
  rw [← range_19] at h
  exact h

/-- Every run of `light_show` from an 8-bit register value: it completes, its
holds show the table, bits 0, 2, 4, 6 are kept and the LEDs are off at the
end. -/
theorem light_show_spec (r : Nat) (hr : r < 256) :
    ∃ holds final, light_show r = some (holds, final) ∧
      holds.map Hold.obs = table_trace light_show_light light_show_duration (List.range 43) ∧
      final < 256 ∧ led_bits final = [false, false, false, false] ∧
      final &&& 85 = r &&& 85 ∧ ∀ h ∈ holds, h.PORTL &&& 85 = r &&& 85 := by
  obtain ⟨holds, final, h1, h2, h3, h4, h5, h6⟩ :=
    light_show_loop_trace light_show_light light_show_duration (List.range 43) r hr
      light_show_bounds
  exact ⟨holds, final, h1, h2, h3, h4 (by decide), h5, h6⟩

/-- C12: for `SOS` and for `light_show`, from any 8-bit register value, the
player run twice in succession (the second run starting from the register the
first one leaves) emits in the second run exactly the sequence of (states of
the four LEDs during the hold, duration) of the first run, which is the
sequence written in the table. -/
theorem playback_twice_same (r : Nat) (hr : r < 256) :
    (∃ h1 f1 h2 f2, SOS r = some (h1, f1) ∧ SOS f1 = some (h2, f2) ∧
      h2.map Hold.obs = h1.map Hold.obs ∧
      h1.map Hold.obs = table_trace SOS_light SOS_duration (List.range 19)) ∧
    (∃ h1 f1 h2 f2, light_show r = some (h1, f1) ∧ light_show f1 = some (h2, f2) ∧
      h2.map Hold.obs = h1.map Hold.obs ∧
      h1.map Hold.obs =
        table_trace light_show_light light_show_duration (List.range 43)) := by
  constructor
  · obtain ⟨h1, f1, e1, t1, b1, _⟩ := SOS_spec r hr
    obtain ⟨h2, f2, e2, t2, _⟩ := SOS_spec f1 b1
    exact ⟨h1, f1, h2, f2, e1, e2, t2.trans t1.symm, t1⟩
  · obtain ⟨h1, f1, e1, t1, b1, _⟩ := light_show_spec r hr
    obtain ⟨h2, f2, e2, t2, _⟩ := light_show_spec f1 b1
    exact ⟨h1, f1, h2, f2, e1, e2, t2.trans t1.symm, t1⟩

/-- C12 from the register value `0xFF`. -/
theorem playback_twice_same_witness :
    255 < 256 ∧
    ∃ h1 f1 h2 f2, SOS 255 = some (h1, f1) ∧ SOS f1 = some (h2, f2) ∧
      h2.map Hold.obs = h1.map Hold.obs ∧
      h1.map Hold.obs = table_trace SOS_light SOS_duration (List.range 19) :=
  ⟨by decide, (playback_twice_same 255 (by decide)).1⟩

theorem table_trace_range_get (light : List Nat) (duration : List Int) (n k : Nat)
    (hk : k < n) :
    (table_trace light duration (List.range n))[k]? =
      some (pattern_bits (light.getD k 0), duration.getD k 0) := by
  simp [table_trace, List.getElem?_map, List.getElem?_range hk]

/-- C13: in `SOS` and in `light_show`, from any 8-bit register value, the hold
of every table entry whose mask is 0 shows all four LEDs off (bits 7, 5, 3, 1
clear) and lasts that entry's duration. -/
theorem zero_mask_holds_dark (r : Nat) (hr : r < 256) :
    (∃ holds final, SOS r = some (holds, final) ∧ holds.length = 19 ∧
      ∀ (k : Nat) (d : Int), SOS_light[k]? = some 0 → SOS_duration[k]? = some d →
        (holds.map Hold.obs)[k]? = some ([false, false, false, false], d)) ∧
    (∃ holds final, light_show r = some (holds, final) ∧ holds.length = 43 ∧
      ∀ (k : Nat) (d : Int), light_show_light[k]? = some 0 → light_show_duration[k]? = some d →
        (holds.map Hold.obs)[k]? = some ([false, false, false, false], d)) := by
  constructor
  · obtain ⟨holds, final, e, t, _⟩ := SOS_spec r hr
    have hlen : holds.length = 19 := by
      have := congrArg List.length t
      simpa [table_trace] using this
    refine ⟨holds, final, e, hlen, ?_⟩
    intro k d hk hd
    have hk19 : k < 19 := by
      have := (List.getElem?_eq_some.mp hk).1
      simpa using this
    rw [t, table_trace_range_get _ _ 19 k hk19]
    simp [List.getD, hk, hd, pattern_bits_zero]
  · obtain ⟨holds, final, e, t, _⟩ := light_show_spec r hr
    have hlen : holds.length = 43 := by
      have := congrArg List.length t
      simpa [table_trace] using this
    refine ⟨holds, final, e, hlen, ?_⟩
    intro k d hk hd
    have hk43 : k < 43 := by
      have := (List.getElem?_eq_some.mp hk).1
      simpa using this
    rw [t, table_trace_range_get _ _ 43 k hk43]
    simp [List.getD, hk, hd, pattern_bits_zero]

/-- C13 from the register value `0xFF`. -/
theorem zero_mask_holds_dark_witness :
    255 < 256 ∧
    ∃ holds final, SOS 255 = some (holds, final) ∧ holds.length = 19 ∧
      ∀ (k : Nat) (d : Int), SOS_light[k]? = some 0 → SOS_duration[k]? = some d →
        (holds.map Hold.obs)[k]? = some ([false, false, false, false], d) :=
  ⟨by decide, (zero_mask_holds_dark 255 (by decide)).1⟩


/-- C15: for every 8-bit register value `r`, when `SOS` returns and when
`light_show` returns the register equals `r AND 0x55` (LED bits 1, 3, 5, 7
cleared, bits 0, 2, 4, 6 unchanged); no `led_state` call on an LED index
changes bits 0, 2, 4, 6, and the register held during every hold of either
playback has the bits 0, 2, 4, 6 of `r`. -/
theorem playback_final_register (r : Nat) (hr : r < 256) :
    (∀ i s P, i < 4 → P < 256 → led_state i s P &&& 0x55 = P &&& 0x55) ∧
    (∃ holds final, SOS r = some (holds, final) ∧ final = r &&& 0x55 ∧
      ∀ h ∈ holds, h.PORTL &&& 0x55 = r &&& 0x55) ∧
    (∃ holds final, light_show r = some (holds, final) ∧ final = r &&& 0x55 ∧
      ∀ h ∈ holds, h.PORTL &&& 0x55 = r &&& 0x55) := by
  refine ⟨fun i s P hi hP => led_state_and_85 i s P hi hP, ?_, ?_⟩
  · obtain ⟨holds, final, e, _, hf, hclr, h85, hh⟩ := SOS_spec r hr
    exact ⟨holds, final, e, (eq_and_85_of_clear final hf hclr).trans h85, hh⟩
  · obtain ⟨holds, final, e, _, hf, hclr, h85, hh⟩ := light_show_spec r hr
    exact ⟨holds, final, e, (eq_and_85_of_clear final hf hclr).trans h85, hh⟩

/-- C15 from the register value `0xFF`: both players leave `0x55`. -/
theorem playback_final_register_witness :
    255 < 256 ∧
    (∃ holds final, SOS 255 = some (holds, final) ∧ final = 255 &&& 0x55 ∧
      ∀ h ∈ holds, h.PORTL &&& 0x55 = 255 &&& 0x55) :=
  ⟨by decide, (playback_final_register 255 (by decide)).2.1⟩

/-- With the LEDs off before, the loop bodies of `SOS` and of `light_show`
perform the same hold and leave the same register. -/
theorem bodies_agree (p : Nat) (d : Int) (P : Nat) (hP : P < 256)
    (hclr : led_bits P = [false, false, false, false]) :
    SOS_body p d P = light_show_body p d P := by
  by_cases hp : p = 0
  · subst hp
    simp [SOS_body, light_show_body, leds_write_zero, leds_off_of_clear P hP hclr]
  · simp [SOS_body, light_show_body, hp]

theorem loops_agree (light : List Nat) (duration : List Int) (idxs : List Nat) (P : Nat)
    (hP : P < 256) (hclr : led_bits P = [false, false, false, false]) :
    SOS_loop light duration idxs P = light_show_loop light duration idxs P := by
  induction idxs generalizing P with
  | nil => rfl
  | cons i rest ih =>
    cases h1 : light[i]? with
    | none => simp [SOS_loop, light_show_loop, h1]
    | some p =>
      cases h2 : duration[i]? with
      | none => simp [SOS_loop, light_show_loop, h1, h2]
      | some d =>
        obtain ⟨_, _, s3, s4, _⟩ := SOS_body_spec p d P hP (Or.inr hclr)
        rw [SOS_loop_cons_eq light duration i rest P p d h1 h2,
          light_show_loop_cons_eq light duration i rest P p d h1 h2,
          ← bodies_agree p d P hP hclr, ih _ s3 s4]

/-- C17: for every table (mask and duration arrays, with any mask values, in
particular masks in 0..15), every list of indices visited and every 8-bit
register value whose four LED bits are clear, the loop of `SOS` and the loop
of `light_show` give the same result: the same register value during every
hold and the same register after every entry (the loops agree on every initial
part of the run), because their bodies agree on such a register and leave the
LED bits clear again. -/
theorem playback_loops_agree (light : List Nat) (duration : List Int) (idxs : List Nat)
    (P : Nat) (hP : P < 256) (hclr : led_bits P = [false, false, false, false]) :
    SOS_loop light duration idxs P = light_show_loop light duration idxs P ∧
    (∀ k, SOS_loop light duration (idxs.take k) P =
      light_show_loop light duration (idxs.take k) P) ∧
    (∀ p d, SOS_body p d P = light_show_body p d P ∧
      (SOS_body p d P).2 < 256 ∧
      led_bits (SOS_body p d P).2 = [false, false, false, false]) := by
  refine ⟨loops_agree light duration idxs P hP hclr,
    fun k => loops_agree light duration (idxs.take k) P hP hclr, ?_⟩
  intro p d
  obtain ⟨_, _, s3, s4, _⟩ := SOS_body_spec p d P hP (Or.inr hclr)
  exact ⟨bodies_agree p d P hP hclr, s3, s4⟩

/-- C17 on the table of `light_show` from the register `0x55`. -/
theorem playback_loops_agree_witness :
    0x55 < 256 ∧ led_bits 0x55 = [false, false, false, false] ∧
    SOS_loop light_show_light light_show_duration (List.range 43) 0x55 =
      light_show_loop light_show_light light_show_duration (List.range 43) 0x55 :=
  ⟨by decide, by decide,
    (playback_loops_agree light_show_light light_show_duration (List.range 43) 0x55
      (by decide) (by decide)).1⟩

/-! ## Write suppression in `glow` -/

/-- One iteration of `glow` from a state where `is_on` mirrors the LED bit:
`led_state` is called exactly when the commanded state differs from `is_on`,
the register is what an unconditional write of the commanded state gives, and
`is_on` mirrors the LED bit again. -/
theorem glow_body_step (LED : Nat) (thr c1 : Int) (ticks : Nat) (s : GlowState)
    (hL : LED < 4) (hP : s.PORTL < 256)
    (hinv : s.is_on = if s.PORTL.testBit (7 - 2 * LED) then 1 else 0) :
    (glow_body LED thr c1 ticks s).1 =
      (if (if count_after c1 ticks < thr then 1 else 0) ≠ s.is_on then
        some (if count_after c1 ticks < thr then 1 else 0) else none) ∧
    (glow_body LED thr c1 ticks s).2.PORTL =
      led_state LED (if count_after c1 ticks < thr then 1 else 0) s.PORTL ∧
    (glow_body LED thr c1 ticks s).2.is_on = (if count_after c1 ticks < thr then 1 else 0) ∧
    (glow_body LED thr c1 ticks s).2.PORTL < 256 ∧
    (glow_body LED thr c1 ticks s).2.is_on =
      (if (glow_body LED thr c1 ticks s).2.PORTL.testBit (7 - 2 * LED) then 1 else 0) := by
  obtain ⟨is_on, P⟩ := s
  simp only at hP hinv
  unfold glow_body glow_branch
  by_cases hc : count_after c1 ticks < thr
  · by_cases hb : P.testBit (7 - 2 * LED) = true
    · have h1 : is_on = 1 := by simp [hinv, hb]
      subst h1
      have hid : led_state LED 1 P = P := led_state_idem LED 1 P hL hP (by simp [hb])
      simp [hc, hid, hP, hb]
    · have h0 : is_on = 0 := by simp [hinv, hb]
      subst h0
      have hbit := led_state_testBit_self LED 1 P hL hP
      simp [hc, led_state_lt, hbit]
  · by_cases hb : P.testBit (7 - 2 * LED) = true
    · have h1 : is_on = 1 := by simp [hinv, hb]
      subst h1
      have hbit := led_state_testBit_self LED 0 P hL hP
      simp [hc, led_state_lt, hbit]
    · have h0 : is_on = 0 := by simp [hinv, hb]
      subst h0
      have hid : led_state LED 0 P = P := led_state_idem LED 0 P hL hP (by simpa using hb)
      simp [hc, hid, hP, hb]

theorem glow_run_refines (LED : Nat) (thr : Int) (inputs : List (Int × Nat)) (s : GlowState)
    (hL : LED < 4) (hP : s.PORTL < 256)
    (hinv : s.is_on = if s.PORTL.testBit (7 - 2 * LED) then 1 else 0) :
    (∀ x ∈ glow_run LED thr inputs s,
      x.2.is_on = if x.2.PORTL.testBit (7 - 2 * LED) then 1 else 0) ∧
    (glow_run LED thr inputs s).map Prod.fst =
      writes_on_change s.is_on (glow_commanded thr inputs) ∧
    (glow_run LED thr inputs s).map (fun x => x.2.PORTL) =
      glow_unconditional_run LED thr inputs s.PORTL := by
  induction inputs generalizing s with
  | nil => exact ⟨fun x hx => by simp [glow_run] at hx, rfl, rfl⟩
  | cons x rest ih =>
    obtain ⟨c1, ticks⟩ := x
    obtain ⟨b1, b2, b3, b4, b5⟩ := glow_body_step LED thr c1 ticks s hL hP hinv
    obtain ⟨i1, i2, i3⟩ := ih (glow_body LED thr c1 ticks s).2 b4 b5
    refine ⟨?_, ?_, ?_⟩
    · intro y hy
      simp only [glow_run, List.mem_cons] at hy
      rcases hy with e | e
      · rw [e]; exact b5
      · exact i1 y e
    · simp only [glow_run, List.map_cons, glow_commanded, writes_on_change]
      rw [b1, i2, b3]
      rfl
    · simp only [glow_run, List.map_cons, glow_unconditional_run]
      rw [b2, i3, b2]

/-- C18: in `glow` (any threshold), provided the LED bit is clear on entry,
for every sequence of observed counter values: after every iteration `is_on`
equals the LED bit; `led_state` is called exactly in the iterations whose
commanded state differs from the previous one (initially off), with that
state; and the register after each iteration is the one produced by the
reference loop that writes the commanded state on every iteration. -/
theorem glow_suppression_refines (LED P : Nat) (thr : Int) (inputs : List (Int × Nat))
    (hL : LED < 4) (hP : P < 256) (hclr : P.testBit (7 - 2 * LED) = false) :
    (∀ x ∈ glow_run LED thr inputs ⟨0, P⟩,
      x.2.is_on = if x.2.PORTL.testBit (7 - 2 * LED) then 1 else 0) ∧
    (glow_run LED thr inputs ⟨0, P⟩).map Prod.fst =
      writes_on_change 0 (glow_commanded thr inputs) ∧
    (glow_run LED thr inputs ⟨0, P⟩).map (fun x => x.2.PORTL) =
      glow_unconditional_run LED thr inputs P :=
  glow_run_refines LED thr inputs ⟨0, P⟩ hL hP (by simp [hclr])

/-- C18 at LED 1, register `0b01000000`, threshold 3. -/
theorem glow_suppression_refines_witness :
    1 < 4 ∧ 64 < 256 ∧ Nat.testBit 64 (7 - 2 * 1) = false ∧
    (glow_run 1 3 [(0, 0), (2, 1), (600, 0)] ⟨0, 64⟩).map (fun x => x.2.PORTL) =
      glow_unconditional_run 1 3 [(0, 0), (2, 1), (600, 0)] 64 :=
  ⟨by decide, by decide, by decide,
    (glow_suppression_refines 1 64 3 [(0, 0), (2, 1), (600, 0)] (by decide) (by decide)
      (by decide)).2.2⟩

end A4
